import Mathlib

/-!
# Call bridge of the componentize embedding (`embedding.cpp`)

A shallow embedding of the call / post_call protocol, the tracked reallocation
path and the export-table builder of `src/embedding/embedding.cpp`, followed by
theorems about them.

Conventions of the embedding

* The process-wide singleton `Runtime` becomes an explicit value of type
  `ComponentizeRuntime` that every operation receives and returns.
* `uint32_t` values are natural numbers below `2 ^ 32`; `int` values are
  integers in `[-2 ^ 31, 2 ^ 31)`; the conversions between the two are the
  explicit functions `toInt32` and `toUInt32`.
* Pointers are wasm32 addresses, i.e. natural numbers; `nullptr` is `0`.
* The scripting engine, the allocator behind `JS_realloc` and linear memory are
  external: they are the fields of `World`.
* `abort()` and accesses outside a vector are distinguished statuses of a
  `Result`, which also carries the state reached and the effects performed.
* Diagnostic output (`LOG`, `fprintf(stderr, ...)`) has no effect on the state
  and is left out.
-/

namespace Componentize

/-! ## Machine integers -/

/-- Conversion of a `uint32_t` to `int32_t` (two's complement reinterpretation). -/
def toInt32 (n : Nat) : Int :=
  if n % 2 ^ 32 < 2 ^ 31 then ((n % 2 ^ 32 : Nat) : Int) else ((n % 2 ^ 32 : Nat) : Int) - 2 ^ 32

/-- Conversion of an `int` to `uint32_t` (reduction modulo `2 ^ 32`). -/
def toUInt32 (i : Int) : Nat :=
  (i % 2 ^ 32).toNat

/-! ## Data model (`embedding.h` as used by `embedding.cpp`) -/

/-- Modelled from the spec: the core value kinds. The enumeration `CoreVal` is
declared in `embedding.h`; its four members are the ones that `embedding.cpp`
switches over. -/
inductive CoreVal where
  | I32
  | I64
  | F32
  | F64
  deriving DecidableEq

/-- Modelled from the spec: the init error codes. The enumeration
`ComponentizeRuntime::InitError` is declared in `embedding.h`; `embedding.cpp`
assigns `FnList` and `TypeParse`, and the spec names the third value "None". -/
inductive InitError where
  | OK
  | FnList
  | TypeParse
  deriving DecidableEq

/-- Engine values as far as the bridge builds and inspects them. A number made
from a `float` or a `double` is kept as the bit pattern it was read from. -/
inductive JSVal where
  | undefined
  | int32 (v : Int)
  | bigint (v : Int)
  | numberF32 (bits : Nat)
  | numberF64 (bits : Nat)
  | object (id : Nat)
  deriving DecidableEq

/-- Modelled from the spec: the function descriptor. The structure
`ComponentizeRuntime::CoreFn` is declared in `embedding.h`; the fields are the
ones that `embedding.cpp` reads and writes, and a fresh descriptor (as made by
`emplace_back`) has no parameters, no return kind and both flags unset. -/
structure CoreFn where
  func : JSVal := JSVal.undefined
  args : List CoreVal := []
  ret : Option CoreVal := none
  retptr : Bool := false
  paramptr : Bool := false
  retsize : Nat := 0
  deriving DecidableEq

/-- Modelled from the spec: the runtime state. The structure
`ComponentizeRuntime` is declared in `embedding.h`; the fields are the ones that
`embedding.cpp` reads and writes (the engine handles and the source name play no
part in the protocol and are left out). The field `cur_fn_idx` is compared with
the literal `-1` and assigned from and compared with `uint32_t` indices in the
source; it is a 32-bit integer on the wasm32 target and is kept here as the
signed value, converted where the source converts it. -/
structure ComponentizeRuntime where
  first_call : Bool
  debug : Bool
  clocks : Bool
  init_err : InitError
  fns : List CoreFn
  free_list : List Nat
  cur_fn_idx : Int
  deriving DecidableEq

/-! ## The allocator behind `JS_realloc` / `JS_free` -/

/-- Allocator state: the addresses of the blocks that are currently allocated,
and a log of the addresses that were passed to `free` while not allocated
(double or invalid frees). -/
structure Heap where
  live : List Nat
  badFrees : List Nat
  deriving DecidableEq

/-- Effects that the bridge performs, in program order. -/
inductive Event where
  | warmup (clocks : Bool)
  | readFn (idx : Nat)
  | realloc (ptr new_size ret : Nat)
  | free (ptr : Nat)
  | invoke (func : JSVal) (args : List JSVal)
  | store32 (addr val : Nat)
  | store64 (addr val : Nat)
  | storeF32 (addr : Nat) (v : JSVal)
  | storeF64 (addr : Nat) (v : JSVal)
  deriving DecidableEq

/-- The ways in which the deferred value of an invocation can end up, as seen
by `call` after `JS_CallFunctionValue` and `run_event_loop`. -/
inductive Settle where
  | threw
  | noPromise
  | noHandlers
  | reactionsFailed
  | loopError
  | pending
  | rejected
  | fulfilled (v : JSVal)
  deriving DecidableEq

/-- Behaviour of a guest callable: it settles, or it calls `ReallocFn`, the
`realloc` function it is given, with four int32 arguments and goes on with the
int32 that comes back. -/
inductive Guest where
  | settle (s : Settle)
  | realloc (old_ptr old_len align new_len : Int) (k : Int → Guest)

/-- The external collaborators of the bridge. `choose h ptr n` is the address
the allocator answers to `realloc(ptr, n)` in heap state `h` (`0` for failure),
`resizeOk n` tells whether the rooted argument vector can be resized to `n`,
`guest f args` is what invoking the engine value `f` on `args` does, and
`load32 a` is the 32-bit word of linear memory at byte address `a`. -/
structure World where
  choose : Heap → Nat → Nat → Nat
  resizeOk : Nat → Bool
  guest : JSVal → List JSVal → Guest
  load32 : Nat → Nat

/-- Reasons for `abort()`. -/
inductive Abort where
  | reentrantCall
  | resizeFailed
  | callThrew
  | noPromise
  | noHandlers
  | reactionsFailed
  | eventLoop
  | notFulfilled
  | reallocFailed
  | bigintRange
  | postCallMismatch
  deriving DecidableEq

/-- Accesses whose behaviour the language leaves undefined. -/
inductive Undefined where
  | fnIndexOutOfRange (idx : Nat)
  | argIndexOutOfRange (idx : Nat)
  | wrongValueTag
  deriving DecidableEq

/-- How an operation ends. -/
inductive Status (α : Type) where
  | returned (v : α)
  | aborted (why : Abort)
  | undefinedBehaviour (why : Undefined)
  deriving DecidableEq

/-- Runtime state together with the allocator state. -/
structure St where
  rt : ComponentizeRuntime
  heap : Heap
  deriving DecidableEq

/-- Outcome of an operation: how it ended, the state it left and the effects it
performed. -/
structure Result (α : Type) where
  status : Status α
  st : St
  trace : List Event
  deriving DecidableEq

/-- The call to `JS_realloc(cx, ptr, orig_size, new_size)`: on failure the heap
is untouched; a null `ptr` allocates; otherwise the block stays in place or
moves, and a move releases the old address. -/
def JS_realloc (W : World) (h : Heap) (ptr _orig_size new_size : Nat) : Heap × Nat :=
  let ret := W.choose h ptr new_size
  if ret = 0 then (h, 0)
  else if ptr = 0 then ({ h with live := h.live ++ [ret] }, ret)
  else if ret = ptr then (h, ret)
  else ({ h with live := h.live.erase ptr ++ [ret] }, ret)

/-- The call to `JS_free(cx, ptr)`: freeing null does nothing, freeing an
allocated block releases it, anything else is logged as a bad free. -/
def JS_free (h : Heap) (ptr : Nat) : Heap :=
  if ptr = 0 then h
  else if ptr ∈ h.live then { h with live := h.live.erase ptr }
  else { h with badFrees := h.badFrees ++ [ptr] }

/-- The function `cabi_free` (source lines 472-475). -/
def cabi_free (s : St) (ptr : Nat) : St × List Event :=
  ({ s with heap := JS_free s.heap ptr }, [Event.free ptr])

/-- The untracked `cabi_realloc_adapter` (source lines 128-132). -/
def cabi_realloc_adapter (W : World) (s : St) (ptr orig_size _org_align new_size : Nat) :
    Result Nat :=
  let r := JS_realloc W s.heap ptr orig_size new_size
  { status := Status.returned r.2, st := { s with heap := r.1 },
    trace := [Event.realloc ptr new_size r.2] }

/-- The tracked `cabi_realloc` (source lines 141-150): the result of
`JS_realloc` is pushed on the free list, then a null result aborts. -/
def cabi_realloc (W : World) (s : St) (ptr orig_size _org_align new_size : Nat) :
    Result Nat :=
  { status :=
      if (JS_realloc W s.heap ptr orig_size new_size).2 = 0 then
        Status.aborted Abort.reallocFailed
      else Status.returned (JS_realloc W s.heap ptr orig_size new_size).2,
    st :=
      { rt := { s.rt with
                free_list := s.rt.free_list ++ [(JS_realloc W s.heap ptr orig_size new_size).2] },
        heap := (JS_realloc W s.heap ptr orig_size new_size).1 },
    trace := [Event.realloc ptr new_size (JS_realloc W s.heap ptr orig_size new_size).2] }

/-- The guest-callable `ReallocFn` (source lines 461-470): four int32 arguments
are converted to a pointer and three `size_t`, passed to `cabi_realloc`, and the
resulting pointer is handed back as an int32. -/
def ReallocFn (W : World) (s : St) (a0 a1 a2 a3 : Int) : Result Int :=
  match (cabi_realloc W s (toUInt32 a0) (toUInt32 a1) (toUInt32 a2) (toUInt32 a3)).status with
  | Status.returned p =>
      { status := Status.returned (toInt32 p),
        st := (cabi_realloc W s (toUInt32 a0) (toUInt32 a1) (toUInt32 a2) (toUInt32 a3)).st,
        trace := (cabi_realloc W s (toUInt32 a0) (toUInt32 a1) (toUInt32 a2) (toUInt32 a3)).trace }
  | Status.aborted a =>
      { status := Status.aborted a,
        st := (cabi_realloc W s (toUInt32 a0) (toUInt32 a1) (toUInt32 a2) (toUInt32 a3)).st,
        trace := (cabi_realloc W s (toUInt32 a0) (toUInt32 a1) (toUInt32 a2) (toUInt32 a3)).trace }
  | Status.undefinedBehaviour u =>
      { status := Status.undefinedBehaviour u,
        st := (cabi_realloc W s (toUInt32 a0) (toUInt32 a1) (toUInt32 a2) (toUInt32 a3)).st,
        trace := (cabi_realloc W s (toUInt32 a0) (toUInt32 a1) (toUInt32 a2) (toUInt32 a3)).trace }

/-- Runs a guest callable to the point where its deferred value has settled,
serving every `realloc` request it makes through `ReallocFn`. -/
def runGuest (W : World) : Guest → St → List Event → Result Settle
  | Guest.settle r, s, tr => { status := Status.returned r, st := s, trace := tr }
  | Guest.realloc a0 a1 a2 a3 k, s, tr =>
      match (ReallocFn W s a0 a1 a2 a3).status with
      | Status.returned p =>
          runGuest W (k p) (ReallocFn W s a0 a1 a2 a3).st (tr ++ (ReallocFn W s a0 a1 a2 a3).trace)
      | Status.aborted a =>
          { status := Status.aborted a, st := (ReallocFn W s a0 a1 a2 a3).st,
            trace := tr ++ (ReallocFn W s a0 a1 a2 a3).trace }
      | Status.undefinedBehaviour u =>
          { status := Status.undefinedBehaviour u, st := (ReallocFn W s a0 a1 a2 a3).st,
            trace := tr ++ (ReallocFn W s a0 a1 a2 a3).trace }

/-- The 64-bit word at byte address `a` (little endian, as on wasm32). -/
def load64 (W : World) (a : Nat) : Nat :=
  W.load32 a % 2 ^ 32 + 2 ^ 32 * (W.load32 (a + 4) % 2 ^ 32)

/-- The write `args[i] = v` into the rooted vector; `none` when `i` is not an
index of the vector. -/
def setArg (args : List JSVal) (i : Nat) (v : JSVal) : Option (List JSVal) :=
  if i < args.length then some (args.set i v) else none

/-- The marshalling loop of `call` (source lines 209-229) from position `i`
on: `kinds` are `fn->args[i..]`, `curptr` is the byte address of the cursor. -/
def marshalLoop (W : World) : List CoreVal → Nat → Nat → List JSVal → Option (List JSVal)
  | [], _, _, args => some args
  | CoreVal.I32 :: ks, i, curptr, args =>
      (setArg args i (JSVal.int32 (toInt32 (W.load32 curptr)))).bind
        (marshalLoop W ks (i + 1) (curptr + 4))
  | CoreVal.I64 :: ks, i, curptr, args =>
      (setArg args i (JSVal.bigint (load64 W curptr))).bind
        (marshalLoop W ks (i + 1) (curptr + 8))
  | CoreVal.F32 :: ks, i, curptr, args =>
      (setArg args i (JSVal.numberF32 (W.load32 curptr % 2 ^ 32))).bind
        (marshalLoop W ks (i + 1) (curptr + 4))
  | CoreVal.F64 :: ks, i, curptr, args =>
      (setArg args i (JSVal.numberF64 (load64 W curptr))).bind
        (marshalLoop W ks (i + 1) (curptr + 8))

/-- The block "setting args" of `call` (source lines 202-230): the argument
vector after it and the value of `argcnt`; `none` when a write leaves the
vector. -/
def setArgs (W : World) (fn : CoreFn) (argptr : Nat) (args : List JSVal) :
    Option (List JSVal × Nat) :=
  if fn.paramptr then
    (setArg args 0 (JSVal.int32 (toInt32 argptr))).map (fun a => (a, 1))
  else if fn.args.length > 0 then
    (marshalLoop W fn.args 0 argptr args).map (fun a => (a, fn.args.length))
  else some (args, 0)

/-- The one-time warm-up at the head of `call` (source lines 154-162). -/
def warmup (rt : ComponentizeRuntime) : ComponentizeRuntime × List Event :=
  if rt.first_call then ({ rt with first_call := false }, [Event.warmup rt.clocks])
  else (rt, [])

/-- The `switch (fn->ret.value())` of `call` (source lines 298-315) for the
fulfilled value `ret` and the buffer at `retptr`: the stores made, an abort
when a big integer is not a `uint64_t`, and undefined behaviour when the value
has not the tag that the accessor used assumes. -/
def unmarshalRet (k : CoreVal) (ret : JSVal) (retptr : Nat) : Status (List Event) :=
  match k, ret with
  | CoreVal.I32, JSVal.int32 v => Status.returned [Event.store32 retptr (toUInt32 v)]
  | CoreVal.I64, JSVal.bigint v =>
      if 0 ≤ v ∧ v < 2 ^ 64 then Status.returned [Event.store64 retptr v.toNat]
      else Status.aborted Abort.bigintRange
  | CoreVal.F32, JSVal.int32 v => Status.returned [Event.storeF32 retptr (JSVal.int32 v)]
  | CoreVal.F32, JSVal.numberF32 b => Status.returned [Event.storeF32 retptr (JSVal.numberF32 b)]
  | CoreVal.F32, JSVal.numberF64 b => Status.returned [Event.storeF32 retptr (JSVal.numberF64 b)]
  | CoreVal.F64, JSVal.int32 v => Status.returned [Event.storeF64 retptr (JSVal.int32 v)]
  | CoreVal.F64, JSVal.numberF32 b => Status.returned [Event.storeF64 retptr (JSVal.numberF32 b)]
  | CoreVal.F64, JSVal.numberF64 b => Status.returned [Event.storeF64 retptr (JSVal.numberF64 b)]
  | _, _ => Status.undefinedBehaviour Undefined.wrongValueTag

/-- The block "Handle singular returns" of `call` (source lines 294-316), given
the fulfilled value `ret`: the final value of `retptr`. -/
def singularReturn (W : World) (fn : CoreFn) (s : St) (tr : List Event) (retptr : Nat)
    (ret : JSVal) : Result Nat :=
  match fn.retptr, fn.ret with
  | false, some k =>
      match (cabi_realloc W s 0 0 4 fn.retsize).status with
      | Status.aborted a =>
          { status := Status.aborted a, st := (cabi_realloc W s 0 0 4 fn.retsize).st,
            trace := tr ++ (cabi_realloc W s 0 0 4 fn.retsize).trace }
      | Status.undefinedBehaviour u =>
          { status := Status.undefinedBehaviour u, st := (cabi_realloc W s 0 0 4 fn.retsize).st,
            trace := tr ++ (cabi_realloc W s 0 0 4 fn.retsize).trace }
      | Status.returned p =>
          match unmarshalRet k ret p with
          | Status.returned stores =>
              { status := Status.returned p, st := (cabi_realloc W s 0 0 4 fn.retsize).st,
                trace := tr ++ (cabi_realloc W s 0 0 4 fn.retsize).trace ++ stores }
          | Status.aborted a =>
              { status := Status.aborted a, st := (cabi_realloc W s 0 0 4 fn.retsize).st,
                trace := tr ++ (cabi_realloc W s 0 0 4 fn.retsize).trace }
          | Status.undefinedBehaviour u =>
              { status := Status.undefinedBehaviour u,
                st := (cabi_realloc W s 0 0 4 fn.retsize).st,
                trace := tr ++ (cabi_realloc W s 0 0 4 fn.retsize).trace }
  | _, _ => { status := Status.returned retptr, st := s, trace := tr }

/-- What `call` makes of the way the deferred value ended (source lines
242-290): only a fulfilled value lets it go on. -/
def settleStatus : Settle → Status JSVal
  | Settle.threw => Status.aborted Abort.callThrew
  | Settle.noPromise => Status.aborted Abort.noPromise
  | Settle.noHandlers => Status.aborted Abort.noHandlers
  | Settle.reactionsFailed => Status.aborted Abort.reactionsFailed
  | Settle.loopError => Status.aborted Abort.eventLoop
  | Settle.pending => Status.aborted Abort.notFulfilled
  | Settle.rejected => Status.aborted Abort.notFulfilled
  | Settle.fulfilled v => Status.returned v

/-- The pre-allocation of the boxed result buffer in `call` (source lines
232-237), which goes to `JS_realloc` directly: the heap, the value of `retptr`,
the effects and the argument vector after it; `none` for the vector when the
write `args[argcnt]` leaves it. -/
def boxedRet (W : World) (fn : CoreFn) (h : Heap) (args : List JSVal) (argcnt : Nat) :
    Heap × Nat × List Event × Option (List JSVal) :=
  if fn.retptr then
    ((JS_realloc W h 0 0 fn.retsize).1, (JS_realloc W h 0 0 fn.retsize).2,
      [Event.realloc 0 fn.retsize (JS_realloc W h 0 0 fn.retsize).2],
      setArg args argcnt (JSVal.int32 (toInt32 (JS_realloc W h 0 0 fn.retsize).2)))
  else (h, 0, [], some args)

/-- The invocation of the bound callable and what follows it in `call` (source
lines 239-322), for the final argument vector `args` and the value `retptr`. -/
def invokeAndReturn (W : World) (fn : CoreFn) (s : St) (tr : List Event) (args : List JSVal)
    (retptr : Nat) : Result Nat :=
  match (runGuest W (W.guest fn.func args) s (tr ++ [Event.invoke fn.func args])).status with
  | Status.aborted x =>
      { status := Status.aborted x,
        st := (runGuest W (W.guest fn.func args) s (tr ++ [Event.invoke fn.func args])).st,
        trace := (runGuest W (W.guest fn.func args) s (tr ++ [Event.invoke fn.func args])).trace }
  | Status.undefinedBehaviour u =>
      { status := Status.undefinedBehaviour u,
        st := (runGuest W (W.guest fn.func args) s (tr ++ [Event.invoke fn.func args])).st,
        trace := (runGuest W (W.guest fn.func args) s (tr ++ [Event.invoke fn.func args])).trace }
  | Status.returned r =>
      match settleStatus r with
      | Status.aborted x =>
          { status := Status.aborted x,
            st := (runGuest W (W.guest fn.func args) s (tr ++ [Event.invoke fn.func args])).st,
            trace :=
              (runGuest W (W.guest fn.func args) s (tr ++ [Event.invoke fn.func args])).trace }
      | Status.undefinedBehaviour u =>
          { status := Status.undefinedBehaviour u,
            st := (runGuest W (W.guest fn.func args) s (tr ++ [Event.invoke fn.func args])).st,
            trace :=
              (runGuest W (W.guest fn.func args) s (tr ++ [Event.invoke fn.func args])).trace }
      | Status.returned ret =>
          singularReturn W fn
            (runGuest W (W.guest fn.func args) s (tr ++ [Event.invoke fn.func args])).st
            (runGuest W (W.guest fn.func args) s (tr ++ [Event.invoke fn.func args])).trace
            retptr ret

/-- The size given to the argument vector,
`fn->args.size() + (fn->retptr ? 1 : 0)` (source line 197). -/
def argsSize (fn : CoreFn) : Nat :=
  fn.args.length + (if fn.retptr then 1 else 0)

/-- The part of `call` after the function descriptor has been fetched (source
lines 194-322). -/
def callBody (W : World) (fn : CoreFn) (s : St) (tr : List Event) (argptr : Nat) :
    Result Nat :=
  if W.resizeOk (argsSize fn) = false then
    { status := Status.aborted Abort.resizeFailed, st := s, trace := tr }
  else
    match setArgs W fn argptr (List.replicate (argsSize fn) JSVal.undefined) with
    | none =>
        { status := Status.undefinedBehaviour (Undefined.argIndexOutOfRange 0), st := s,
          trace := tr }
    | some (args1, argcnt) =>
        match boxedRet W fn s.heap args1 argcnt with
        | (heap1, _, tr1, none) =>
            { status := Status.undefinedBehaviour (Undefined.argIndexOutOfRange argcnt),
              st := { s with heap := heap1 }, trace := tr ++ tr1 }
        | (heap1, retptr, tr1, some args2) =>
            invokeAndReturn W fn { s with heap := heap1 } (tr ++ tr1) args2 retptr

/-- The exported `call` (source lines 152-323). -/
def call (W : World) (s : St) (fn_idx argptr : Nat) : Result Nat :=
  if (warmup s.rt).1.cur_fn_idx ≠ -1 then
    { status := Status.aborted Abort.reentrantCall, st := { s with rt := (warmup s.rt).1 },
      trace := (warmup s.rt).2 }
  else
    match s.rt.fns[fn_idx]? with
    | none =>
        { status := Status.undefinedBehaviour (Undefined.fnIndexOutOfRange fn_idx),
          st := { s with rt := { (warmup s.rt).1 with cur_fn_idx := toInt32 fn_idx } },
          trace := (warmup s.rt).2 ++ [Event.readFn fn_idx] }
    | some fn =>
        callBody W fn { s with rt := { (warmup s.rt).1 with cur_fn_idx := toInt32 fn_idx } }
          ((warmup s.rt).2 ++ [Event.readFn fn_idx]) argptr

/-- The loop `for (void *ptr : Runtime.free_list) cabi_free(ptr);` of
`post_call` (source lines 333-335), run over the entries `ps`. -/
def freeLoop : List Nat → St → List Event → St × List Event
  | [], s, tr => (s, tr)
  | p :: ps, s, tr =>
      let r := cabi_free s p
      freeLoop ps r.1 (tr ++ r.2)

/-- The exported `post_call` (source lines 325-339). The comparison
`Runtime.cur_fn_idx != fn_idx` is made after the usual arithmetic conversions,
that is between `uint32_t` values. -/
def post_call (s : St) (fn_idx : Nat) : Result Unit :=
  if toUInt32 s.rt.cur_fn_idx ≠ fn_idx then
    { status := Status.aborted Abort.postCallMismatch, st := s, trace := [] }
  else
    { status := Status.returned (),
      st :=
        { rt := { s.rt with cur_fn_idx := -1, free_list := [] },
          heap := (freeLoop s.rt.free_list { s with rt := { s.rt with cur_fn_idx := -1 } } []).1.heap },
      trace := (freeLoop s.rt.free_list { s with rt := { s.rt with cur_fn_idx := -1 } } []).2 }

/-- The exported `check_init` (source lines 341-349); draining a pending
exception does not touch the runtime state. -/
def check_init (s : St) : InitError × St :=
  (s.rt.init_err, s)

/-! ## The export-table builder (`componentize_initialize`) -/

/-- The terminator of a C string. -/
def NUL : Char := Char.ofNat 0

/-- The C function `strncmp(a, b, n)` on character arrays given by their
contents up to the terminator; reading past the end of a list reads the
terminator. The answer is negative, zero or positive; the source only tests it
against zero. -/
def strncmp : List Char → List Char → Nat → Int
  | _, _, 0 => 0
  | a, b, n + 1 =>
      if a.headD NUL ≠ b.headD NUL then
        (if (a.headD NUL).toNat < (b.headD NUL).toNat then -1 else 1)
      else if a.headD NUL = NUL then 0
      else strncmp a.tail b.tail n

/-- The names of the core value kinds, `core_ty_str` (source lines 477-488). -/
def core_ty_str : CoreVal → List Char
  | CoreVal.I32 => ['i', '3', '2']
  | CoreVal.I64 => ['i', '6', '4']
  | CoreVal.F32 => ['f', '3', '2']
  | CoreVal.F64 => ['f', '6', '4']

/-- The chain of `strncmp(&arg_tys[j], "...", 3) == 0` tests that both parsers
use (source lines 411-426 and 440-451); `p` is the text at `&arg_tys[j]`. -/
def coreValAt (p : List Char) : Option CoreVal :=
  if strncmp p ['i', '3', '2'] 3 = 0 then some CoreVal.I32
  else if strncmp p ['i', '6', '4'] 3 = 0 then some CoreVal.I64
  else if strncmp p ['f', '3', '2'] 3 = 0 then some CoreVal.F32
  else if strncmp p ['f', '6', '4'] 3 = 0 then some CoreVal.F64
  else none

/-- The loop `while (true)` over the argument descriptor (source lines
407-430): `p` is the text at `&arg_tys[j]`, `args` is `fn->args` so far. The
answer is `fn->args` at the exit and whether the exit was the `break` (`true`)
or the type-parse `return` (`false`); `none` only when the fuel runs out. -/
def parseArgsLoop : Nat → List Char → List CoreVal → Option (List CoreVal × Bool)
  | 0, _, _ => none
  | fuel + 1, p, args =>
      if p.headD NUL = NUL then some (args, true)
      else
        match coreValAt p with
        | none => some (args, false)
        | some k =>
            parseArgsLoop fuel
              (if (p.drop 3).headD NUL = ',' then (p.drop 3).drop 1 else p.drop 3)
              (args ++ [k])

/-- Parsing of the argument descriptor of one export (source lines 399-430):
the descriptor after it and whether parsing succeeded. Every pass of the loop
but the last consumes at least three characters, so the fuel given suffices. -/
def parseArgTys (arg_tys : List Char) (fn : CoreFn) : Option (CoreFn × Bool) :=
  let fn1 : CoreFn := if arg_tys.headD NUL = '*' then { fn with paramptr := true } else fn
  let p := if arg_tys.headD NUL = '*' then arg_tys.drop 1 else arg_tys
  (parseArgsLoop (arg_tys.length + 1) p fn1.args).map
    (fun r => ({ fn1 with args := r.1 }, r.2))

/-- Parsing of the return descriptor of one export (source lines 432-452): the
descriptor after it and whether parsing succeeded. -/
def parseRetTy (arg_tys : List Char) (fn : CoreFn) : CoreFn × Bool :=
  if arg_tys.headD NUL ≠ NUL then
    let fn1 : CoreFn := if arg_tys.headD NUL = '*' then { fn with retptr := true } else fn
    let p := if arg_tys.headD NUL = '*' then arg_tys.drop 1 else arg_tys
    match coreValAt p with
    | some k => ({ fn1 with ret := some k }, true)
    | none => (fn1, false)
  else (fn, true)

/-- The configuration of one export: the values of `EXPORT<i>_NAME`,
`EXPORT<i>_ARGS`, `EXPORT<i>_RET`, and what `atoi` makes of
`EXPORT<i>_RETSIZE`. -/
structure ExportEnv where
  name : List Char
  args : List Char
  ret : List Char
  retsize : Int

/-- What `componentize_initialize` reads from its surroundings: what `atoi`
makes of `DEBUG` and `FEATURE_CLOCKS`, whether `JS_SetProperty` and the call of
`bindExports` succeed, the export count as a `uint32_t`, the per-export
configuration, and `JS_GetProperty` on the initializer global (`none` when it
fails). -/
structure InitEnv where
  debug : Int
  feature_clocks : Int
  setSourceMod : Bool
  bindExports : Bool
  export_cnt : Nat
  exports : Nat → ExportEnv
  getProperty : List Char → Option JSVal

/-- One pass of the loop over the exports (source lines 385-455): the runtime
after it and whether the loop goes on (`false` after a `return`). -/
def initExport (E : InitEnv) (i : Nat) (rt : ComponentizeRuntime) :
    Option (ComponentizeRuntime × Bool) :=
  let fn0 : CoreFn := {}
  match E.getProperty (E.exports i).name with
  | none => some ({ rt with fns := rt.fns ++ [fn0], init_err := InitError.FnList }, false)
  | some function_binding =>
      let fn1 : CoreFn := { fn0 with func := function_binding }
      match parseArgTys (E.exports i).args fn1 with
      | none => none
      | some (fn2, false) =>
          some ({ rt with fns := rt.fns ++ [fn2], init_err := InitError.TypeParse }, false)
      | some (fn2, true) =>
          match parseRetTy (E.exports i).ret fn2 with
          | (fn3, false) =>
              some ({ rt with fns := rt.fns ++ [fn3], init_err := InitError.TypeParse }, false)
          | (fn3, true) =>
              some ({ rt with
                        fns := rt.fns ++ [{ fn3 with retsize := toUInt32 (E.exports i).retsize }] },
                    true)

/-- The loop `for (size_t i = 0; i < export_cnt; i++)` (source lines 384-456)
with `n` passes left, the next one for export `i`. -/
def initLoop (E : InitEnv) : Nat → Nat → ComponentizeRuntime → Option ComponentizeRuntime
  | 0, _, rt => some rt
  | n + 1, i, rt =>
      match initExport E i rt with
      | none => none
      | some (rt1, true) => initLoop E n (i + 1) rt1
      | some (rt1, false) => some rt1

/-- The exported `componentize.wizer` entry point (source lines 351-457). -/
def componentize_initialize (E : InitEnv) (rt : ComponentizeRuntime) :
    Option ComponentizeRuntime :=
  let rt1 := if toUInt32 E.debug ≠ 0 then { rt with debug := true } else rt
  let rt2 := if toUInt32 E.feature_clocks ≠ 0 then { rt1 with clocks := true } else rt1
  if !E.setSourceMod then some { rt2 with init_err := InitError.FnList }
  else if !E.bindExports then some { rt2 with init_err := InitError.FnList }
  else initLoop E E.export_cnt 0 rt2

/-- Modelled from the spec: the runtime state before initialization. The
default member initialisers of `ComponentizeRuntime` are in `embedding.h`; the
spec gives the first-call marker as not yet performed, the current-call index
as the sentinel "none", an empty function table and allocation list and no
init error. -/
def Runtime0 : ComponentizeRuntime :=
  { first_call := true, debug := false, clocks := false, init_err := InitError.OK,
    fns := [], free_list := [], cur_fn_idx := -1 }

end Componentize

namespace Componentize

/-! ## Concrete surroundings used to evaluate the bridge -/

/-- An allocator that hands out the address past the largest live one and grows
blocks by moving them. -/
def bumpChoose (h : Heap) (_ptr _n : Nat) : Nat :=
  h.live.foldl max 0 + 8

/-- A world whose guest settles at once with `undefined`. -/
def W0 : World :=
  { choose := bumpChoose, resizeOk := fun _ => true,
    guest := fun _ _ => Guest.settle (Settle.fulfilled JSVal.undefined),
    load32 := fun _ => 0 }

/-- The empty heap. -/
def heap0 : Heap := { live := [], badFrees := [] }

/-- The idle state with an empty function table. -/
def idle0 : St := { rt := { Runtime0 with first_call := false }, heap := heap0 }

/-- A state in which the call of index `0` is active. -/
def active0 : St :=
  { rt := { Runtime0 with first_call := false, cur_fn_idx := 0 }, heap := heap0 }

/-- An idle state whose table holds one export without parameters and without
a return value. -/
def idle1 : St :=
  { rt := { Runtime0 with first_call := false, fns := [{ func := JSVal.object 1 }] },
    heap := heap0 }

/-- The active state with two tracked buffers. -/
def active2 : St :=
  { rt := { Runtime0 with first_call := false, cur_fn_idx := 0,
                          fns := [{ func := JSVal.object 1 }], free_list := [8, 16] },
    heap := { live := [8, 16], badFrees := [] } }

/-- An idle state whose table holds one export with a boxed `f64` result of
eight bytes (return descriptor `*f64`). -/
def idleBoxed : St :=
  { rt := { Runtime0 with
              first_call := false,
              fns := [{ func := JSVal.object 1, ret := some CoreVal.F64, retptr := true,
                        retsize := 8 }] },
    heap := heap0 }

/-- A guest that allocates eight bytes through the `realloc` import, then grows
that very buffer to sixteen bytes, then settles. -/
def growingGuest : Guest :=
  Guest.realloc 0 0 1 8 (fun p =>
    Guest.realloc p 8 1 16 (fun _ => Guest.settle (Settle.fulfilled JSVal.undefined)))

/-- A world with the guest `growingGuest` and an allocator that grows a block
in place. -/
def WgrowInPlace : World :=
  { choose := fun h ptr n => if ptr = 0 then bumpChoose h ptr n else ptr,
    resizeOk := fun _ => true,
    guest := fun _ _ => growingGuest,
    load32 := fun _ => 0 }

/-- A world with the guest `growingGuest` and an allocator that grows a block
by moving it. -/
def WgrowMove : World :=
  { choose := bumpChoose, resizeOk := fun _ => true,
    guest := fun _ _ => growingGuest,
    load32 := fun _ => 0 }

/-- A manifest of one export whose argument descriptor is `i99`. -/
def envI99 : InitEnv :=
  { debug := 0, feature_clocks := 0, setSourceMod := true, bindExports := true,
    export_cnt := 1,
    exports := fun _ => { name := ['f'], args := ['i', '9', '9'], ret := [], retsize := 0 },
    getProperty := fun _ => some (JSVal.object 1) }

/-- The runtime that initialization leaves for `envI99`. -/
def rtI99 : ComponentizeRuntime :=
  { Runtime0 with fns := [{ func := JSVal.object 1 }], init_err := InitError.TypeParse }

/-- The state `s` with the init error `e` recorded. -/
def setInitErr (e : InitError) (s : St) : St :=
  { s with rt := { s.rt with init_err := e } }

/-- The result `r` with `f` applied to its state. -/
def Result.mapSt {α : Type} (f : St → St) (r : Result α) : Result α :=
  { r with st := f r.st }

/-- The text `,k1,k2,...` that continues a comma-separated list of kind names. -/
def commaTail : List CoreVal → List Char
  | [] => []
  | k :: ks => ',' :: (core_ty_str k ++ commaTail ks)

/-- The kind names of `ks` separated by single commas. -/
def commaSep : List CoreVal → List Char
  | [] => []
  | k :: ks => core_ty_str k ++ commaTail ks

/-- An argument descriptor in the form the specification describes: an optional
leading `*`, then the kind names of `ks` separated by single commas. -/
def descriptor (star : Bool) (ks : List CoreVal) : List Char :=
  (if star then ['*'] else []) ++ commaSep ks

/-- The text of a sequence of kind names, each followed by a comma or not. -/
def tokenText : List (CoreVal × Bool) → List Char
  | [] => []
  | t :: ts => core_ty_str t.1 ++ ((if t.2 then [','] else []) ++ tokenText ts)

/-- A manifest of one export with the argument descriptor `i32,i64` and no
return value. -/
def envI32I64 : InitEnv :=
  { debug := 0, feature_clocks := 0, setSourceMod := true, bindExports := true,
    export_cnt := 1,
    exports := fun _ =>
      { name := ['f'], args := ['i', '3', '2', ',', 'i', '6', '4'], ret := [], retsize := 0 },
    getProperty := fun _ => some (JSVal.object 1) }

/-- A manifest of one export with the given argument and return descriptors. -/
def envOf (args ret : List Char) : InitEnv :=
  { debug := 0, feature_clocks := 0, setSourceMod := true, bindExports := true,
    export_cnt := 1,
    exports := fun _ => { name := ['f'], args := args, ret := ret, retsize := 0 },
    getProperty := fun _ => some (JSVal.object 1) }

/-! ## Notions used to state the properties of initialization and marshalling -/

/-- The table entry that the pass for export `i` ends with when neither the
lookup of the name nor the parsing of the two descriptors fails; `none` when
one of them fails. -/
def exportEntry (E : InitEnv) (i : Nat) : Option CoreFn :=
  match E.getProperty (E.exports i).name with
  | none => none
  | some f =>
      match parseArgTys (E.exports i).args { func := f } with
      | some (fn2, true) =>
          match parseRetTy (E.exports i).ret fn2 with
          | (fn3, true) => some { fn3 with retsize := toUInt32 (E.exports i).retsize }
          | (_, false) => none
      | _ => none

/-- The failure of export `i`, if any: a failed lookup of its name, or else a
descriptor that does not parse. -/
def exportError (E : InitEnv) (i : Nat) : InitError :=
  match E.getProperty (E.exports i).name with
  | none => InitError.FnList
  | some _ =>
      match exportEntry E i with
      | some _ => InitError.OK
      | none => InitError.TypeParse

/-- The number of bytes by which the cursor of the marshalling loop advances
for a value of kind `k` (`curptr += 1` or `curptr += 2` on a `uint32_t *`). -/
def coreSize : CoreVal → Nat
  | CoreVal.I32 => 4
  | CoreVal.I64 => 8
  | CoreVal.F32 => 4
  | CoreVal.F64 => 8

/-- The engine value that the marshalling loop makes for kind `k` with the
cursor at byte address `a` (the four cases of the `switch`, source lines
210-228). -/
def decodeAt (W : World) (k : CoreVal) (a : Nat) : JSVal :=
  match k with
  | CoreVal.I32 => JSVal.int32 (toInt32 (W.load32 a))
  | CoreVal.I64 => JSVal.bigint (load64 W a)
  | CoreVal.F32 => JSVal.numberF32 (W.load32 a % 2 ^ 32)
  | CoreVal.F64 => JSVal.numberF64 (load64 W a)

/-- The values that the marshalling loop makes for the kinds `ks` with the
cursor starting at byte address `a`. -/
def decodeAll (W : World) : List CoreVal → Nat → List JSVal
  | [], _ => []
  | k :: ks, a => decodeAt W k a :: decodeAll W ks (a + coreSize k)

/-- The sum of the sizes of the kinds `0 .. i-1` of `ks`. -/
def argOffset (ks : List CoreVal) (i : Nat) : Nat :=
  ((ks.take i).map coreSize).sum

/-- Whether an effect is the invocation of a callable. -/
def Event.isInvoke : Event → Bool
  | Event.invoke _ _ => true
  | _ => false

/-- The address that a store writes to. -/
def Event.storeAddr : Event → Option Nat
  | Event.store32 a _ => some a
  | Event.store64 a _ => some a
  | Event.storeF32 a _ => some a
  | Event.storeF64 a _ => some a
  | _ => none

/-- Conversion of a `uint64_t` to `int64_t` (two's complement reinterpretation). -/
def toInt64 (n : Nat) : Int :=
  if n % 2 ^ 64 < 2 ^ 63 then ((n % 2 ^ 64 : Nat) : Int) else ((n % 2 ^ 64 : Nat) : Int) - 2 ^ 64

/-- Conversion of an `int64_t` to `uint64_t` (reduction modulo `2 ^ 64`). -/
def toUInt64 (i : Int) : Nat :=
  (i % 2 ^ 64).toNat

/-- The function `from_bigint64` (source lines 65-74): the big integer must be
a `uint64_t`, else the engine aborts; the word found is returned as an
`int64_t`. A value that is no big integer is outside what `toBigInt` allows. -/
def from_bigint64 (handle : JSVal) : Status Int :=
  match handle with
  | JSVal.bigint v =>
      if 0 ≤ v ∧ v < 2 ^ 64 then Status.returned (toInt64 v.toNat)
      else Status.aborted Abort.bigintRange
  | _ => Status.undefinedBehaviour Undefined.wrongValueTag

/-- The function `to_bigint64` (source lines 76-79): the `int64_t` is converted
to `uint64_t` and made a big integer. -/
def to_bigint64 (val : Int) : JSVal :=
  JSVal.bigint (toUInt64 val)

/-- An idle state whose table holds one export with the argument descriptor
`i32,i64` and no return value. -/
def idleI32I64 : St :=
  { rt := { Runtime0 with
              first_call := false,
              fns := [{ func := JSVal.object 1, args := [CoreVal.I32, CoreVal.I64] }] },
    heap := heap0 }

/-- A world whose memory holds the int32 `7` at address `16` and the int64
`9000000000` at address `20`. -/
def WscenarioA : World :=
  { choose := bumpChoose, resizeOk := fun _ => true,
    guest := fun _ _ => Guest.settle (Settle.fulfilled JSVal.undefined),
    load32 := fun a => if a = 16 then 7 else if a = 20 then 410065408 else if a = 24 then 2
      else 0 }

/-- An idle state whose table holds one export with the argument descriptor
`i32` and no return value. -/
def idleI32 : St :=
  { rt := { Runtime0 with
              first_call := false,
              fns := [{ func := JSVal.object 1, args := [CoreVal.I32] }] },
    heap := heap0 }

/-- A world whose memory holds the word `4294967295` everywhere. -/
def Wones : World :=
  { choose := bumpChoose, resizeOk := fun _ => true,
    guest := fun _ _ => Guest.settle (Settle.fulfilled JSVal.undefined),
    load32 := fun _ => 4294967295 }

/-- An idle state whose table holds the export of the argument descriptor `*`
and the return descriptor `i32` with a result buffer of four bytes: `paramptr`
is set and no parameter kind was parsed. -/
def idleStar : St :=
  { rt := { Runtime0 with
              first_call := false,
              fns := [{ func := JSVal.object 1, paramptr := true, ret := some CoreVal.I32,
                        retsize := 4 }] },
    heap := heap0 }

/-- An idle state whose table holds the export of the argument descriptor
`*i32,i32` without a return value: `paramptr` is set and two parameter kinds
were parsed. -/
def idleStarTwo : St :=
  { rt := { Runtime0 with
              first_call := false,
              fns := [{ func := JSVal.object 1, paramptr := true,
                        args := [CoreVal.I32, CoreVal.I32] }] },
    heap := heap0 }

/-- An idle state whose table holds the export of the argument descriptor `*`
and the return descriptor `*f64` with a result buffer of eight bytes. -/
def idleStarBoxed : St :=
  { rt := { Runtime0 with
              first_call := false,
              fns := [{ func := JSVal.object 1, paramptr := true, ret := some CoreVal.F64,
                        retptr := true, retsize := 8 }] },
    heap := heap0 }

/-- An idle state whose table holds the export of the argument descriptor
`*i32,i32` and the return descriptor `*f64` with a result buffer of eight
bytes. -/
def idleStarTwoBoxed : St :=
  { rt := { Runtime0 with
              first_call := false,
              fns := [{ func := JSVal.object 1, paramptr := true,
                        args := [CoreVal.I32, CoreVal.I32], ret := some CoreVal.F64,
                        retptr := true, retsize := 8 }] },
    heap := heap0 }

/-- A manifest of one export with the argument descriptor `i32,i64` and no
return value, for which the call of `bindExports` fails. -/
def envBindFails : InitEnv :=
  { debug := 0, feature_clocks := 0, setSourceMod := true, bindExports := false,
    export_cnt := 1,
    exports := fun _ =>
      { name := ['f'], args := ['i', '3', '2', ',', 'i', '6', '4'], ret := [], retsize := 0 },
    getProperty := fun _ => some (JSVal.object 1) }

/-! ## Host schedules -/

/-- Operations that the host performs on the bridge. -/
inductive HostOp where
  | call (fn_idx argptr : Nat)
  | post_call (fn_idx : Nat)

/-- Runs a schedule of host operations. Next to the state it keeps the number
of calls that have returned and whose `post_call` has not yet returned. The
schedule ends (`none`) as soon as an operation aborts or leaves defined
behaviour. -/
def runHost (W : World) : List HostOp → St → Nat → Option (St × Nat)
  | [], s, active => some (s, active)
  | HostOp.call i a :: ops, s, active =>
      match (call W s i a).status with
      | Status.returned _ => runHost W ops (call W s i a).st (active + 1)
      | _ => none
  | HostOp.post_call i :: ops, s, active =>
      match (post_call s i).status with
      | Status.returned _ => runHost W ops (post_call s i).st (active - 1)
      | _ => none

/-! ## Frame lemmas -/

/-- The runtime `b` is the runtime `a` with entries appended to the free list. -/
def GrowsFrom (a b : ComponentizeRuntime) : Prop :=
  ∃ l, b = { a with free_list := a.free_list ++ l }

theorem GrowsFrom.refl (a : ComponentizeRuntime) : GrowsFrom a a :=
  ⟨[], by simp⟩

theorem GrowsFrom.trans {a b c : ComponentizeRuntime} (h1 : GrowsFrom a b) (h2 : GrowsFrom b c) :
    GrowsFrom a c := by
  obtain ⟨l1, rfl⟩ := h1
  obtain ⟨l2, rfl⟩ := h2
  exact ⟨l1 ++ l2, by simp⟩

theorem cabi_realloc_grows (W : World) (s : St) (p o a n : Nat) :
    GrowsFrom s.rt (cabi_realloc W s p o a n).st.rt :=
  ⟨[(JS_realloc W s.heap p o n).2], rfl⟩

theorem ReallocFn_grows (W : World) (s : St) (a0 a1 a2 a3 : Int) :
    GrowsFrom s.rt (ReallocFn W s a0 a1 a2 a3).st.rt := by
  have h := cabi_realloc_grows W s (toUInt32 a0) (toUInt32 a1) (toUInt32 a2) (toUInt32 a3)
  unfold ReallocFn
  split <;> exact h

theorem runGuest_grows (W : World) (g : Guest) :
    ∀ (s : St) (tr : List Event), GrowsFrom s.rt (runGuest W g s tr).st.rt := by
  induction g with
  | settle r => intro s tr; exact GrowsFrom.refl s.rt
  | realloc a0 a1 a2 a3 k ih =>
      intro s tr
      have h := ReallocFn_grows W s a0 a1 a2 a3
      unfold runGuest
      split
      · exact GrowsFrom.trans h (ih _ _ _)
      · exact h
      · exact h

theorem singularReturn_grows (W : World) (fn : CoreFn) (s : St) (tr : List Event) (rp : Nat)
    (v : JSVal) : GrowsFrom s.rt (singularReturn W fn s tr rp v).st.rt := by
  have h := cabi_realloc_grows W s 0 0 4 fn.retsize
  unfold singularReturn
  split
  · split
    · exact h
    · exact h
    · split <;> exact h
  · exact GrowsFrom.refl _

theorem invokeAndReturn_grows (W : World) (fn : CoreFn) (s : St) (tr : List Event)
    (args : List JSVal) (rp : Nat) : GrowsFrom s.rt (invokeAndReturn W fn s tr args rp).st.rt := by
  have hg := runGuest_grows W (W.guest fn.func args) s (tr ++ [Event.invoke fn.func args])
  unfold invokeAndReturn
  split
  · exact hg
  · exact hg
  · split
    · exact hg
    · exact hg
    · exact GrowsFrom.trans hg (singularReturn_grows _ _ _ _ _ _)

theorem callBody_grows (W : World) (fn : CoreFn) (s : St) (tr : List Event) (argptr : Nat) :
    GrowsFrom s.rt (callBody W fn s tr argptr).st.rt := by
  unfold callBody
  split
  · exact GrowsFrom.refl _
  · split
    · exact GrowsFrom.refl _
    · split
      · exact GrowsFrom.refl _
      · exact invokeAndReturn_grows W fn _ _ _ _

/-! ## Lemmas on the machine integers and on the protocol -/

theorem toUInt32_toInt32 (n : Nat) (h : n < 2 ^ 32) : toUInt32 (toInt32 n) = n := by
  unfold toUInt32 toInt32
  rw [Nat.mod_eq_of_lt h]
  split <;> omega

theorem toInt32_ne_neg_one (n : Nat) (h : n < 2 ^ 32 - 1) : toInt32 n ≠ -1 := by
  unfold toInt32
  have h1 : n % 2 ^ 32 = n := Nat.mod_eq_of_lt (by omega)
  rw [h1]
  split <;> omega

theorem warmup_cur_fn_idx (rt : ComponentizeRuntime) :
    (warmup rt).1.cur_fn_idx = rt.cur_fn_idx := by
  unfold warmup
  split <;> rfl

theorem warmup_free_list (rt : ComponentizeRuntime) :
    (warmup rt).1.free_list = rt.free_list := by
  unfold warmup
  split <;> rfl

theorem warmup_fns (rt : ComponentizeRuntime) : (warmup rt).1.fns = rt.fns := by
  unfold warmup
  split <;> rfl

theorem warmup_trace (rt : ComponentizeRuntime) (e : Event) (h : e ∈ (warmup rt).2) :
    e = Event.warmup rt.clocks := by
  unfold warmup at h
  split at h <;> simp at h
  exact h

theorem freeLoop_spec (ps : List Nat) :
    ∀ (s : St) (tr : List Event),
      freeLoop ps s tr = ({ s with heap := ps.foldl JS_free s.heap }, tr ++ ps.map Event.free) := by
  induction ps with
  | nil => intro s tr; simp [freeLoop]
  | cons p ps ih => intro s tr; simp [freeLoop, cabi_free, ih]

/-- A call that returns started from Idle with an index inside the table, and
leaves that index as the current one and the table as it was. -/
theorem call_returned (W : World) (s : St) (fn_idx argptr v : Nat)
    (h : (call W s fn_idx argptr).status = Status.returned v) :
    s.rt.cur_fn_idx = -1 ∧ fn_idx < s.rt.fns.length ∧
      (call W s fn_idx argptr).st.rt.cur_fn_idx = toInt32 fn_idx ∧
      (call W s fn_idx argptr).st.rt.fns = s.rt.fns := by
  unfold call at h ⊢
  split at h
  · simp at h
  · rename_i hg
    rw [warmup_cur_fn_idx] at hg
    split at h
    · simp at h
    · rename_i fn hfn
      have hlt : fn_idx < s.rt.fns.length := by
        rcases Nat.lt_or_ge fn_idx s.rt.fns.length with h1 | h1
        · exact h1
        · rw [List.getElem?_eq_none h1] at hfn; simp at hfn
      have hgrow := callBody_grows W fn
        { s with rt := { (warmup s.rt).1 with cur_fn_idx := toInt32 fn_idx } }
        ((warmup s.rt).2 ++ [Event.readFn fn_idx]) argptr
      obtain ⟨l, hl⟩ := hgrow
      rw [if_neg (by rw [warmup_cur_fn_idx]; exact hg)]
      simp only [hfn]
      rw [hl]
      exact ⟨not_not.mp hg, hlt, rfl, warmup_fns s.rt⟩

theorem post_call_returned (s : St) (fn_idx : Nat)
    (h : (post_call s fn_idx).status = Status.returned ()) :
    (post_call s fn_idx).st.rt.cur_fn_idx = -1 ∧ (post_call s fn_idx).st.rt.free_list = [] ∧
      (post_call s fn_idx).st.rt.fns = s.rt.fns := by
  unfold post_call at h ⊢
  split at h
  · simp at h
  · rename_i hg
    rw [if_neg hg]
    exact ⟨rfl, rfl, rfl⟩

/-- Along a schedule the number of returned calls that still wait for their
`post_call` never exceeds one. -/
theorem runHost_active (W : World) (ops : List HostOp) :
    ∀ (s s' : St) (a a' : Nat), s.rt.fns.length < 2 ^ 32 → a ≤ 1 →
      (s.rt.cur_fn_idx = -1 → a = 0) → runHost W ops s a = some (s', a') → a' ≤ 1 := by
  induction ops with
  | nil =>
      intro s s' a a' _ ha _ h
      simp [runHost] at h
      omega
  | cons op ops ih =>
      intro s s' a a' hlen ha hidle h
      cases op with
      | call i p =>
          simp only [runHost] at h
          split at h
          · rename_i v hv
            obtain ⟨h1, h2, h3, h4⟩ := call_returned W s i p v hv
            have h0 := hidle h1
            refine ih _ _ _ _ (by rw [h4]; exact hlen) (by omega) ?_ h
            intro hc
            rw [h3] at hc
            exact absurd hc (toInt32_ne_neg_one i (by omega))
          · simp at h
      | post_call i =>
          simp only [runHost] at h
          split at h
          · rename_i v hv
            obtain ⟨_, _, h4⟩ := post_call_returned s i hv
            exact ih _ _ _ _ (by rw [h4]; exact hlen) (by omega) (fun _ => by omega) h
          · simp at h

/-! ## The protocol abort is raised by the guard of `call` only -/

theorem cabi_realloc_not_reentrant (W : World) (s : St) (p o a n : Nat) :
    (cabi_realloc W s p o a n).status ≠ Status.aborted Abort.reentrantCall := by
  unfold cabi_realloc
  dsimp only
  split <;> simp

theorem ReallocFn_not_reentrant (W : World) (s : St) (a0 a1 a2 a3 : Int) :
    (ReallocFn W s a0 a1 a2 a3).status ≠ Status.aborted Abort.reentrantCall := by
  have h := cabi_realloc_not_reentrant W s (toUInt32 a0) (toUInt32 a1) (toUInt32 a2) (toUInt32 a3)
  unfold ReallocFn
  split
  · simp
  · rename_i a ha
    intro hc
    simp only [Status.aborted.injEq] at hc
    rw [hc] at ha
    exact h ha
  · simp

theorem runGuest_not_reentrant (W : World) (g : Guest) :
    ∀ (s : St) (tr : List Event),
      (runGuest W g s tr).status ≠ Status.aborted Abort.reentrantCall := by
  induction g with
  | settle r => intro s tr; simp [runGuest]
  | realloc a0 a1 a2 a3 k ih =>
      intro s tr
      have h := ReallocFn_not_reentrant W s a0 a1 a2 a3
      unfold runGuest
      split
      · exact ih _ _ _
      · rename_i a ha
        intro hc
        simp only [Status.aborted.injEq] at hc
        rw [hc] at ha
        exact h ha
      · simp

theorem unmarshalRet_not_reentrant (k : CoreVal) (v : JSVal) (p : Nat) :
    unmarshalRet k v p ≠ Status.aborted Abort.reentrantCall := by
  unfold unmarshalRet
  split
  case h_2 => split <;> simp
  all_goals simp

theorem settleStatus_not_reentrant (r : Settle) :
    settleStatus r ≠ Status.aborted Abort.reentrantCall := by
  cases r <;> simp [settleStatus]

theorem singularReturn_not_reentrant (W : World) (fn : CoreFn) (s : St) (tr : List Event)
    (rp : Nat) (v : JSVal) :
    (singularReturn W fn s tr rp v).status ≠ Status.aborted Abort.reentrantCall := by
  have h := cabi_realloc_not_reentrant W s 0 0 4 fn.retsize
  unfold singularReturn
  split
  · split
    · rename_i a ha
      intro hc
      simp only [Status.aborted.injEq] at hc
      rw [hc] at ha
      exact h ha
    · simp
    · rename_i p _
      have hu := fun k => unmarshalRet_not_reentrant k v p
      split
      · simp
      · rename_i a ha
        intro hc
        simp only [Status.aborted.injEq] at hc
        rw [hc] at ha
        exact hu _ ha
      · simp
  · simp

theorem invokeAndReturn_not_reentrant (W : World) (fn : CoreFn) (s : St) (tr : List Event)
    (args : List JSVal) (rp : Nat) :
    (invokeAndReturn W fn s tr args rp).status ≠ Status.aborted Abort.reentrantCall := by
  have hg := runGuest_not_reentrant W (W.guest fn.func args) s (tr ++ [Event.invoke fn.func args])
  unfold invokeAndReturn
  split
  · rename_i a ha
    intro hc
    simp only [Status.aborted.injEq] at hc
    rw [hc] at ha
    exact hg ha
  · simp
  · rename_i r _
    have hs := settleStatus_not_reentrant r
    split
    · rename_i a ha
      intro hc
      simp only [Status.aborted.injEq] at hc
      rw [hc] at ha
      exact hs ha
    · simp
    · exact singularReturn_not_reentrant _ _ _ _ _ _

theorem callBody_not_reentrant (W : World) (fn : CoreFn) (s : St) (tr : List Event)
    (argptr : Nat) :
    (callBody W fn s tr argptr).status ≠ Status.aborted Abort.reentrantCall := by
  unfold callBody
  split
  · simp
  · split
    · simp
    · split
      · simp
      · exact invokeAndReturn_not_reentrant W fn _ _ _ _

/-! ## The call / post_call protocol -/

/-- C1: in every state in which a call is active (the current-call index is
not `-1`), `call` aborts as a protocol violation for every index and argument
pointer; it has then neither fetched a function descriptor nor invoked a
callable, and the allocation list, the heap and the current-call index are as
before. Hence along every schedule of host operations that starts idle (with a
function table of fewer than `2 ^ 32` entries, the export count being a
`uint32_t`), at most one returned call waits for its `post_call`. -/
theorem call_while_active_aborts (W : World) (s : St) (fn_idx argptr : Nat)
    (h : s.rt.cur_fn_idx ≠ -1) :
    (call W s fn_idx argptr).status = Status.aborted Abort.reentrantCall ∧
      (call W s fn_idx argptr).st.rt.free_list = s.rt.free_list ∧
      (call W s fn_idx argptr).st.heap = s.heap ∧
      (call W s fn_idx argptr).st.rt.cur_fn_idx = s.rt.cur_fn_idx ∧
      (∀ e ∈ (call W s fn_idx argptr).trace, e = Event.warmup s.rt.clocks) ∧
      (∀ (ops : List HostOp) (t t' : St) (active : Nat),
        t.rt.cur_fn_idx = -1 → t.rt.fns.length < 2 ^ 32 →
        runHost W ops t 0 = some (t', active) → active ≤ 1) := by
  have hg : (warmup s.rt).1.cur_fn_idx ≠ -1 := by rw [warmup_cur_fn_idx]; exact h
  unfold call
  rw [if_pos hg]
  refine ⟨rfl, warmup_free_list s.rt, rfl, warmup_cur_fn_idx s.rt, ?_, ?_⟩
  · intro e he
    exact warmup_trace s.rt e he
  · intro ops t t' active _ hlen hrun
    exact runHost_active W ops t t' 0 active hlen (by omega) (fun _ => rfl) hrun

/-- Witness for C1: a call of index `0` while the call of index `0` is active. -/
theorem call_while_active_aborts_witness :
    (call W0 active0 0 0).status = Status.aborted Abort.reentrantCall ∧
      (call W0 active0 0 0).st.rt.free_list = active0.rt.free_list :=
  ⟨(call_while_active_aborts W0 active0 0 0 (by decide)).1,
    (call_while_active_aborts W0 active0 0 0 (by decide)).2.1⟩

/-- C2, evaluation at the failing input: from the idle state (current-call index
`-1`) `post_call` of the index `4294967295` does not abort but returns, because
the comparison of the `-1` with the `uint32_t` index finds them equal. -/
theorem post_call_idle_sentinel_returns :
    idle0.rt.cur_fn_idx = -1 ∧ (post_call idle0 4294967295).status = Status.returned () := by
  decide

/-- C3, counterexample: with an empty function table, `call` of index `0` from
the idle state is not an abort; the table slot of that index has been fetched. -/
theorem call_out_of_range_counterexample :
    idle0.rt.cur_fn_idx = -1 ∧ idle0.rt.fns.length ≤ 0 ∧
      (¬ ∃ why, (call W0 idle0 0 0).status = Status.aborted why) ∧
      Event.readFn 0 ∈ (call W0 idle0 0 0).trace := by
  refine ⟨by decide, by decide, ?_, by decide⟩
  rintro ⟨why, hw⟩
  have h : (call W0 idle0 0 0).status
      = Status.undefinedBehaviour (Undefined.fnIndexOutOfRange 0) := by decide
  rw [h] at hw
  cases hw

/-- C3 as amended: for an index that is not below the length of the function
table, `call` from the idle state makes no index check. It does not abort: it
records the index as the current-call index and indexes the table out of range,
which is where defined behaviour ends. Up to there no callable has been invoked
and the allocation list and the heap are untouched. -/
theorem call_out_of_range_undefined (W : World) (s : St) (fn_idx argptr : Nat)
    (hidle : s.rt.cur_fn_idx = -1) (hrange : s.rt.fns.length ≤ fn_idx) :
    (call W s fn_idx argptr).status
        = Status.undefinedBehaviour (Undefined.fnIndexOutOfRange fn_idx) ∧
      (call W s fn_idx argptr).st.rt.cur_fn_idx = toInt32 fn_idx ∧
      (call W s fn_idx argptr).st.rt.free_list = s.rt.free_list ∧
      (call W s fn_idx argptr).st.heap = s.heap ∧
      (call W s fn_idx argptr).trace = (warmup s.rt).2 ++ [Event.readFn fn_idx] ∧
      (∀ f a, Event.invoke f a ∉ (call W s fn_idx argptr).trace) := by
  have hg : ¬ (warmup s.rt).1.cur_fn_idx ≠ -1 := by rw [warmup_cur_fn_idx]; simp [hidle]
  unfold call
  rw [if_neg hg, List.getElem?_eq_none hrange]
  refine ⟨rfl, rfl, warmup_free_list s.rt, rfl, rfl, ?_⟩
  intro f a hmem
  rcases List.mem_append.mp hmem with h1 | h1
  · have := warmup_trace s.rt _ h1
    cases this
  · simp at h1

/-- Witness for C3 as amended: index `0` and the empty table. -/
theorem call_out_of_range_undefined_witness :
    (call W0 idle0 0 0).status = Status.undefinedBehaviour (Undefined.fnIndexOutOfRange 0) :=
  (call_out_of_range_undefined W0 idle0 0 0 (by decide) (by decide)).1

/-- C4: in the state Active(i) with allocation list `L`, `post_call i` returns,
passes the entries of `L` to `free` once each and in list order, and leaves the
allocation list empty and the state idle; and after any `post_call` that
returns the allocation list is empty and a new `call` passes the protocol
check. -/
theorem post_call_frees_all (s : St) (i : Nat) :
    (i < 2 ^ 32 → s.rt.cur_fn_idx = toInt32 i →
      (post_call s i).status = Status.returned () ∧
      (post_call s i).trace = s.rt.free_list.map Event.free ∧
      (post_call s i).st.heap = s.rt.free_list.foldl JS_free s.heap ∧
      (post_call s i).st.rt.free_list = [] ∧
      (post_call s i).st.rt.cur_fn_idx = -1) ∧
    ((post_call s i).status = Status.returned () →
      (post_call s i).st.rt.free_list = [] ∧
      (post_call s i).st.rt.cur_fn_idx = -1 ∧
      ∀ (W : World) (fn_idx argptr : Nat),
        (call W (post_call s i).st fn_idx argptr).status
          ≠ Status.aborted Abort.reentrantCall) := by
  constructor
  · intro hi hcur
    have hg : ¬ toUInt32 s.rt.cur_fn_idx ≠ i := by
      rw [hcur, toUInt32_toInt32 i hi]; simp
    unfold post_call
    rw [if_neg hg, freeLoop_spec]
    simp
  · intro hret
    obtain ⟨h1, h2, _⟩ := post_call_returned s i hret
    refine ⟨h2, h1, ?_⟩
    intro W fn_idx argptr hab
    have hg : ¬ (warmup (post_call s i).st.rt).1.cur_fn_idx ≠ -1 := by
      rw [warmup_cur_fn_idx]; simp [h1]
    unfold call at hab
    rw [if_neg hg] at hab
    split at hab
    · cases hab
    · exact callBody_not_reentrant W _ _ _ _ hab

/-- Witness for C4: the active state with the tracked buffers `8` and `16`. -/
theorem post_call_frees_all_witness :
    (post_call active2 0).trace = [Event.free 8, Event.free 16] ∧
      (post_call active2 0).st.rt.free_list = [] :=
  ⟨((post_call_frees_all active2 0).1 (by decide) (by decide)).2.1,
    ((post_call_frees_all active2 0).1 (by decide) (by decide)).2.2.2.1⟩

/-- C5, evaluation at the failing input: for an export with the boxed result
`*f64` of eight bytes, `call` returns the address `8` of the result buffer with
an empty allocation list, and the `post_call` that follows frees nothing: the
buffer is still allocated afterwards. -/
theorem boxed_result_buffer_not_tracked :
    (call W0 idleBoxed 0 0).status = Status.returned 8 ∧
      (call W0 idleBoxed 0 0).st.rt.free_list = [] ∧
      (post_call (call W0 idleBoxed 0 0).st 0).status = Status.returned () ∧
      (post_call (call W0 idleBoxed 0 0).st 0).trace = [] ∧
      8 ∈ (post_call (call W0 idleBoxed 0 0).st 0).st.heap.live := by
  decide

/-- C6, evaluation at the failing input: a guest that allocates a buffer
through the tracked path and then grows it. When the block grows in place, the
allocation list holds its address twice and `post_call` frees it twice; when
the block moves, the list still holds the released old address and `post_call`
frees that address although it is no longer allocated. -/
theorem tracked_regrow_double_free :
    (call WgrowInPlace idle1 0 0).st.rt.free_list = [8, 8] ∧
      (post_call (call WgrowInPlace idle1 0 0).st 0).trace = [Event.free 8, Event.free 8] ∧
      (post_call (call WgrowInPlace idle1 0 0).st 0).st.heap.badFrees = [8] ∧
      (call WgrowMove idle1 0 0).st.rt.free_list = [8, 16] ∧
      (call WgrowMove idle1 0 0).st.heap.live = [16] ∧
      (post_call (call WgrowMove idle1 0 0).st 0).st.heap.badFrees = [8] := by
  decide

/-- C7, counterexample: for the manifest with the argument descriptor `i99`
initialization stops with the type-parse error recorded, and `call` of index
`0` in the state it leaves invokes the callable bound to that export. -/
theorem call_after_init_error_counterexample :
    componentize_initialize envI99 Runtime0 = some rtI99 ∧
      rtI99.init_err = InitError.TypeParse ∧
      Event.invoke (JSVal.object 1) [] ∈ (call W0 { rt := rtI99, heap := heap0 } 0 0).trace := by
  decide

/-! ## `call` does not read the init error -/

theorem cabi_realloc_setInitErr (W : World) (e : InitError) (s : St) (p o a n : Nat) :
    cabi_realloc W (setInitErr e s) p o a n
      = (cabi_realloc W s p o a n).mapSt (setInitErr e) := rfl

theorem ReallocFn_setInitErr (W : World) (e : InitError) (s : St) (a0 a1 a2 a3 : Int) :
    ReallocFn W (setInitErr e s) a0 a1 a2 a3
      = (ReallocFn W s a0 a1 a2 a3).mapSt (setInitErr e) := by
  unfold ReallocFn
  rw [cabi_realloc_setInitErr]
  have hst : ((cabi_realloc W s (toUInt32 a0) (toUInt32 a1) (toUInt32 a2) (toUInt32 a3)).mapSt
      (setInitErr e)).status
      = (cabi_realloc W s (toUInt32 a0) (toUInt32 a1) (toUInt32 a2) (toUInt32 a3)).status := rfl
  rw [hst]
  split <;> rfl

theorem runGuest_setInitErr (W : World) (e : InitError) (g : Guest) :
    ∀ (s : St) (tr : List Event),
      runGuest W g (setInitErr e s) tr = (runGuest W g s tr).mapSt (setInitErr e) := by
  induction g with
  | settle r => intro s tr; rfl
  | realloc a0 a1 a2 a3 k ih =>
      intro s tr
      unfold runGuest
      rw [ReallocFn_setInitErr]
      have hst : ((ReallocFn W s a0 a1 a2 a3).mapSt (setInitErr e)).status
          = (ReallocFn W s a0 a1 a2 a3).status := rfl
      rw [hst]
      split
      · exact ih _ _ _
      · rfl
      · rfl

theorem singularReturn_setInitErr (W : World) (e : InitError) (fn : CoreFn) (s : St)
    (tr : List Event) (rp : Nat) (v : JSVal) :
    singularReturn W fn (setInitErr e s) tr rp v
      = (singularReturn W fn s tr rp v).mapSt (setInitErr e) := by
  unfold singularReturn
  rw [cabi_realloc_setInitErr]
  have hst : ((cabi_realloc W s 0 0 4 fn.retsize).mapSt (setInitErr e)).status
      = (cabi_realloc W s 0 0 4 fn.retsize).status := rfl
  rw [hst]
  split
  · split
    · rfl
    · rfl
    · split <;> rfl
  · rfl

theorem invokeAndReturn_setInitErr (W : World) (e : InitError) (fn : CoreFn) (s : St)
    (tr : List Event) (args : List JSVal) (rp : Nat) :
    invokeAndReturn W fn (setInitErr e s) tr args rp
      = (invokeAndReturn W fn s tr args rp).mapSt (setInitErr e) := by
  unfold invokeAndReturn
  rw [runGuest_setInitErr]
  have hst : ((runGuest W (W.guest fn.func args) s (tr ++ [Event.invoke fn.func args])).mapSt
      (setInitErr e)).status
      = (runGuest W (W.guest fn.func args) s (tr ++ [Event.invoke fn.func args])).status := rfl
  rw [hst]
  split
  · rfl
  · rfl
  · split
    · rfl
    · rfl
    · exact singularReturn_setInitErr _ _ _ _ _ _ _

theorem callBody_setInitErr (W : World) (e : InitError) (fn : CoreFn) (s : St)
    (tr : List Event) (argptr : Nat) :
    callBody W fn (setInitErr e s) tr argptr
      = (callBody W fn s tr argptr).mapSt (setInitErr e) := by
  unfold callBody
  split
  · rfl
  · split
    · rfl
    · have hh : (setInitErr e s).heap = s.heap := rfl
      rw [hh]
      split
      · rfl
      · rename_i heap1 rp tr1 args2 _
        exact invokeAndReturn_setInitErr W e fn ⟨s.rt, heap1⟩ (tr ++ tr1) args2 rp

/-- C7 as amended: `call` does not consult the recorded init error. In every
runtime state, with whatever init error recorded, `call` ends in the same way,
performs the same effects and leaves the same state apart from the recorded
error as it does when another error code, or none, is recorded. -/
theorem call_ignores_init_err (W : World) (e : InitError) (s : St) (fn_idx argptr : Nat) :
    call W (setInitErr e s) fn_idx argptr
      = (call W s fn_idx argptr).mapSt (setInitErr e) := by
  have hw1 : (warmup (setInitErr e s).rt).1 = { (warmup s.rt).1 with init_err := e } := by
    unfold warmup setInitErr
    split <;> rfl
  have hw2 : (warmup (setInitErr e s).rt).2 = (warmup s.rt).2 := by
    unfold warmup setInitErr
    dsimp only
    split <;> rfl
  unfold call
  rw [hw1, hw2]
  have hf : (setInitErr e s).rt.fns = s.rt.fns := rfl
  rw [hf]
  split
  · rfl
  · split
    · rfl
    · exact callBody_setInitErr W e _
        ⟨{ (warmup s.rt).1 with cur_fn_idx := toInt32 fn_idx }, s.heap⟩ _ _

/-! ## Descriptor parsing -/

theorem strncmp_three (p : List Char) (a b c : Char) (ha : a ≠ NUL) (hb : b ≠ NUL)
    (hc : c ≠ NUL) : strncmp p [a, b, c] 3 = 0 ↔ ∃ rest, p = a :: b :: c :: rest := by
  constructor
  · intro h
    match p, h with
    | [], h => simp [strncmp, Ne.symm ha] at h; split at h <;> simp at h
    | [x], h =>
        simp only [strncmp, List.headD_cons, List.tail_cons, List.headD_nil] at h
        by_cases hx : x = a
        · subst hx; simp [ha, Ne.symm hb] at h; split at h <;> simp at h
        · simp [hx] at h; split at h <;> simp at h
    | [x, y], h =>
        simp only [strncmp, List.headD_cons, List.tail_cons, List.headD_nil] at h
        by_cases hx : x = a
        · subst hx
          by_cases hy : y = b
          · subst hy; simp [ha, hb, Ne.symm hc] at h; split at h <;> simp at h
          · simp [ha, hy] at h; split at h <;> simp at h
        · simp [hx] at h; split at h <;> simp at h
    | x :: y :: z :: rest, h =>
        simp only [strncmp, List.headD_cons, List.tail_cons] at h
        by_cases hx : x = a
        · subst hx
          by_cases hy : y = b
          · subst hy
            by_cases hz : z = c
            · subst hz; exact ⟨rest, rfl⟩
            · simp [ha, hb, hz] at h; split at h <;> simp at h
          · simp [ha, hy] at h; split at h <;> simp at h
        · simp [hx] at h; split at h <;> simp at h
  · rintro ⟨rest, rfl⟩
    simp [strncmp, ha, hb, hc]

theorem strncmp_i32 (p : List Char) :
    strncmp p ['i', '3', '2'] 3 = 0 ↔ ∃ rest, p = 'i' :: '3' :: '2' :: rest :=
  strncmp_three p 'i' '3' '2' (by decide) (by decide) (by decide)

theorem strncmp_i64 (p : List Char) :
    strncmp p ['i', '6', '4'] 3 = 0 ↔ ∃ rest, p = 'i' :: '6' :: '4' :: rest :=
  strncmp_three p 'i' '6' '4' (by decide) (by decide) (by decide)

theorem strncmp_f32 (p : List Char) :
    strncmp p ['f', '3', '2'] 3 = 0 ↔ ∃ rest, p = 'f' :: '3' :: '2' :: rest :=
  strncmp_three p 'f' '3' '2' (by decide) (by decide) (by decide)

theorem strncmp_f64 (p : List Char) :
    strncmp p ['f', '6', '4'] 3 = 0 ↔ ∃ rest, p = 'f' :: '6' :: '4' :: rest :=
  strncmp_three p 'f' '6' '4' (by decide) (by decide) (by decide)

theorem coreValAt_append (k : CoreVal) (rest : List Char) :
    coreValAt (core_ty_str k ++ rest) = some k := by
  cases k <;> simp [coreValAt, core_ty_str, strncmp, NUL]

theorem coreValAt_some (p : List Char) (k : CoreVal) (h : coreValAt p = some k) :
    ∃ rest, p = core_ty_str k ++ rest := by
  unfold coreValAt at h
  split at h
  · rename_i h1
    cases h
    exact (strncmp_i32 p).mp h1
  · split at h
    · rename_i h1
      cases h
      exact (strncmp_i64 p).mp h1
    · split at h
      · rename_i h1
        cases h
        exact (strncmp_f32 p).mp h1
      · split at h
        · rename_i h1
          cases h
          exact (strncmp_f64 p).mp h1
        · cases h

theorem coreValAt_none (p : List Char) (h : coreValAt p = none) (k : CoreVal)
    (rest : List Char) : p ≠ core_ty_str k ++ rest := by
  intro hp
  rw [hp, coreValAt_append] at h
  cases h

theorem core_ty_str_length (k : CoreVal) : (core_ty_str k).length = 3 := by
  cases k <;> rfl

theorem core_ty_str_headD (k : CoreVal) (rest : List Char) :
    (core_ty_str k ++ rest).headD NUL ≠ NUL ∧ (core_ty_str k ++ rest).headD NUL ≠ '*' ∧
      (core_ty_str k ++ rest).headD NUL ≠ ',' := by
  cases k <;> simp [core_ty_str] <;> decide

theorem core_ty_str_drop (k : CoreVal) (rest : List Char) :
    (core_ty_str k ++ rest).drop 3 = rest := by
  cases k <;> rfl

/-- One pass of the argument loop over a kind name, with fuel left. -/
theorem parseArgsLoop_token (fuel : Nat) (k : CoreVal) (rest : List Char)
    (acc : List CoreVal) :
    parseArgsLoop (fuel + 1) (core_ty_str k ++ rest) acc
      = parseArgsLoop fuel (if rest.headD NUL = ',' then rest.drop 1 else rest) (acc ++ [k]) := by
  rw [parseArgsLoop, if_neg (core_ty_str_headD k rest).1, coreValAt_append, core_ty_str_drop]

theorem parseArgsLoop_end (fuel : Nat) (acc : List CoreVal) :
    parseArgsLoop (fuel + 1) [] acc = some (acc, true) := by
  simp [parseArgsLoop]

theorem commaTail_length (ks : List CoreVal) : (commaTail ks).length = 4 * ks.length := by
  induction ks with
  | nil => rfl
  | cons k ks ih => simp [commaTail, core_ty_str_length, ih]; omega

/-- The argument loop on a kind name followed by `,k1,k2,...`. -/
theorem parseArgsLoop_commaTail (ks : List CoreVal) :
    ∀ (k : CoreVal) (fuel : Nat) (acc : List CoreVal), ks.length + 1 < fuel →
      parseArgsLoop fuel (core_ty_str k ++ commaTail ks) acc = some (acc ++ k :: ks, true) := by
  induction ks with
  | nil =>
      intro k fuel acc h
      obtain ⟨f, rfl⟩ : ∃ f, fuel = f + 2 := ⟨fuel - 2, by simp at h; omega⟩
      rw [parseArgsLoop_token]
      simp [commaTail, parseArgsLoop_end]
  | cons k2 ks ih =>
      intro k fuel acc h
      obtain ⟨f, rfl⟩ : ∃ f, fuel = f + 1 := ⟨fuel - 1, by omega⟩
      rw [parseArgsLoop_token]
      simp only [commaTail, List.headD_cons, if_true, List.drop_succ_cons, List.drop_zero]
      rw [ih k2 f (acc ++ [k]) (by simp at h; omega)]
      simp

theorem parseArgsLoop_commaSep (ks : List CoreVal) (fuel : Nat) (acc : List CoreVal)
    (h : ks.length ≤ fuel) :
    parseArgsLoop (fuel + 1) (commaSep ks) acc = some (acc ++ ks, true) := by
  cases ks with
  | nil => simp [commaSep, parseArgsLoop_end]
  | cons k ks => exact parseArgsLoop_commaTail ks k (fuel + 1) acc (by simp at h; omega)

theorem commaSep_length (ks : List CoreVal) : ks.length ≤ (commaSep ks).length := by
  cases ks with
  | nil => simp [commaSep]
  | cons k ks => simp [commaSep, core_ty_str_length, commaTail_length]; omega

theorem commaSep_headD (ks : List CoreVal) : (commaSep ks).headD NUL ≠ '*' := by
  cases ks with
  | nil => simp [commaSep]; decide
  | cons k ks => exact (core_ty_str_headD k _).2.1

theorem parseRetTy_nil (fn : CoreFn) : parseRetTy [] fn = (fn, true) := by
  simp [parseRetTy]

/-- C8: for every argument descriptor made of an optional leading `*` and the
names of the kinds `ks` separated by single commas, the parser of the Binding
Table Builder succeeds, the parsed parameter kinds are exactly `ks` (same
length, same order) and `paramptr` is set exactly when the `*` is there; for
`i32,i64` this gives `[I32, I64]` without `paramptr`. With such an argument
descriptor and an empty return descriptor, the pass for the export appends that
descriptor to the table and records no error. -/
theorem parseArgTys_descriptor (star : Bool) (ks : List CoreVal) (f : JSVal) :
    parseArgTys (descriptor star ks) { func := f }
        = some ({ func := f, args := ks, paramptr := star }, true) ∧
      parseArgTys ['i', '3', '2', ',', 'i', '6', '4'] { func := f }
        = some ({ func := f, args := [CoreVal.I32, CoreVal.I64], paramptr := false }, true) ∧
      (∀ (E : InitEnv) (i : Nat) (rt : ComponentizeRuntime),
        E.getProperty (E.exports i).name = some f →
        (E.exports i).args = descriptor star ks → (E.exports i).ret = [] →
        initExport E i rt
          = some ({ rt with
                      fns := rt.fns ++ [{ func := f, args := ks, paramptr := star,
                                          retsize := toUInt32 (E.exports i).retsize }] },
                  true)) := by
  have h1 : parseArgTys (descriptor star ks) { func := f }
      = some ({ func := f, args := ks, paramptr := star }, true) := by
    cases star with
    | true =>
        have hd : descriptor true ks = '*' :: commaSep ks := rfl
        rw [hd]
        unfold parseArgTys
        simp only [List.headD_cons, if_true, List.drop_succ_cons, List.drop_zero,
          List.length_cons]
        rw [parseArgsLoop_commaSep ks _ _ (by have := commaSep_length ks; omega)]
        simp
    | false =>
        have hd : descriptor false ks = commaSep ks := by simp [descriptor]
        rw [hd]
        unfold parseArgTys
        simp only [if_neg (commaSep_headD ks)]
        rw [parseArgsLoop_commaSep ks _ _ (commaSep_length ks)]
        simp
  refine ⟨h1, ?_, ?_⟩
  · simp [parseArgTys, parseArgsLoop, coreValAt, strncmp, NUL]
  · intro E i rt hprop hargs hret
    unfold initExport
    simp only [hprop, hargs, hret, h1, parseRetTy_nil]

/-- Witness for C8: the manifest with the argument descriptor `i32,i64`. -/
theorem parseArgTys_descriptor_witness :
    initExport envI32I64 0 Runtime0
      = some ({ Runtime0 with
                  fns := [{ func := JSVal.object 1, args := [CoreVal.I32, CoreVal.I64] }] },
              true) :=
  (parseArgTys_descriptor false [CoreVal.I32, CoreVal.I64] (JSVal.object 1)).2.2
    envI32I64 0 Runtime0 rfl rfl rfl

theorem tokenText_headD (ts : List (CoreVal × Bool)) :
    (tokenText ts).headD NUL ≠ ',' ∧ (tokenText ts).headD NUL ≠ '*' := by
  cases ts with
  | nil => simp [tokenText]; decide
  | cons t ts => exact ⟨(core_ty_str_headD t.1 _).2.2, (core_ty_str_headD t.1 _).2.1⟩

theorem tokenText_length (ts : List (CoreVal × Bool)) : ts.length ≤ (tokenText ts).length := by
  induction ts with
  | nil => simp
  | cons t ts ih => simp [tokenText, core_ty_str_length]; omega

/-- The argument loop accepts every sequence of kind names that are each
followed by a comma or not. -/
theorem parseArgsLoop_tokenText (ts : List (CoreVal × Bool)) :
    ∀ (fuel : Nat) (acc : List CoreVal), ts.length ≤ fuel →
      parseArgsLoop (fuel + 1) (tokenText ts) acc = some (acc ++ ts.map Prod.fst, true) := by
  induction ts with
  | nil => intro fuel acc _; simp [tokenText, parseArgsLoop_end]
  | cons t ts ih =>
      intro fuel acc h
      obtain ⟨f, rfl⟩ : ∃ f, fuel = f + 1 := ⟨fuel - 1, by simp at h; omega⟩
      obtain ⟨k, c⟩ := t
      simp only [tokenText]
      rw [parseArgsLoop_token]
      cases c with
      | true =>
          simp only [if_true, List.cons_append, List.nil_append, List.headD_cons,
            List.drop_succ_cons, List.drop_zero]
          rw [ih f _ (by simp at h; omega)]
          simp
      | false =>
          simp only [Bool.false_eq_true, if_false, List.nil_append,
            if_neg (tokenText_headD ts).1]
          rw [ih f _ (by simp at h; omega)]
          simp

/-- The argument loop ends within the fuel that `parseArgTys` gives it. -/
theorem parseArgsLoop_total (fuel : Nat) :
    ∀ (p : List Char) (acc : List CoreVal), p.length < fuel →
      ∃ r, parseArgsLoop fuel p acc = some r := by
  induction fuel with
  | zero => intro p acc h; omega
  | succ fuel ih =>
      intro p acc h
      rw [parseArgsLoop]
      split
      · exact ⟨_, rfl⟩
      · split
        · exact ⟨_, rfl⟩
        · rename_i k hk
          obtain ⟨rest, rfl⟩ := coreValAt_some p k hk
          rw [core_ty_str_drop]
          apply ih
          have hl : (core_ty_str k ++ rest).length = 3 + rest.length := by
            simp [core_ty_str_length]
          split
          · simp; omega
          · omega

/-- The argument loop accepts nothing but sequences of kind names that are each
followed by a comma or not. -/
theorem parseArgsLoop_accepts (fuel : Nat) :
    ∀ (p : List Char) (acc r : List CoreVal), NUL ∉ p →
      parseArgsLoop fuel p acc = some (r, true) →
      ∃ ts, p = tokenText ts ∧ r = acc ++ ts.map Prod.fst := by
  induction fuel with
  | zero => intro p acc r _ h; simp [parseArgsLoop] at h
  | succ fuel ih =>
      intro p acc r hnul h
      rw [parseArgsLoop] at h
      split at h
      · rename_i hhead
        cases p with
        | nil =>
            simp only [Option.some.injEq, Prod.mk.injEq, and_true] at h
            exact ⟨[], rfl, by simp [h]⟩
        | cons c cs =>
            simp only [List.headD_cons] at hhead
            exact absurd (hhead ▸ List.mem_cons_self c cs) hnul
      · split at h
        · simp at h
        · rename_i k hk
          obtain ⟨rest, rfl⟩ := coreValAt_some p k hk
          rw [core_ty_str_drop] at h
          have hrest : NUL ∉ rest := fun hm => hnul (List.mem_append_right _ hm)
          split at h
          · rename_i hcomma
            cases rest with
            | nil => simp at hcomma; exact absurd hcomma (by decide)
            | cons c cs =>
                simp only [List.headD_cons] at hcomma
                subst hcomma
                simp only [List.drop_succ_cons, List.drop_zero] at h
                obtain ⟨ts, hts, hr⟩ :=
                  ih cs _ r (fun hm => hrest (List.mem_cons_of_mem _ hm)) h
                refine ⟨(k, true) :: ts, ?_, ?_⟩
                · simp [tokenText, hts]
                · simp [hr]
          · obtain ⟨ts, hts, hr⟩ := ih rest _ r hrest h
            refine ⟨(k, false) :: ts, ?_, ?_⟩
            · simp [tokenText, hts]
            · simp [hr]

/-- C9, counterexample: the argument descriptors `i32i64` (two kind names with
no comma between them) and `i32,` (a trailing comma) are accepted, and
initialization with either of them records no error. -/
theorem lenient_descriptor_counterexample :
    parseArgTys ['i', '3', '2', 'i', '6', '4'] {}
        = some ({ args := [CoreVal.I32, CoreVal.I64] }, true) ∧
      parseArgTys ['i', '3', '2', ','] {} = some ({ args := [CoreVal.I32] }, true) ∧
      ( componentize_initialize (envOf ['i', '3', '2', 'i', '6', '4'] []) Runtime0).map
          (fun rt => rt.init_err) = some InitError.OK ∧
      ( componentize_initialize (envOf ['i', '3', '2', ','] []) Runtime0).map
          (fun rt => rt.init_err) = some InitError.OK := by
  decide

/-- C9 as amended: the parser always ends, and an argument descriptor (a C
string, so without the terminator inside) is accepted, i.e. no type-parse
error is recorded for it, if and only if after an optional leading `*` it is a
sequence of the three-character names `i32`, `i64`, `f32`, `f64`, each followed
by one comma or by none. Every other descriptor, such as one with an unknown
name, makes the pass for the export record the type-parse error and stop. -/
theorem parseArgTys_accepts_iff (s : List Char) (hnul : NUL ∉ s) :
    (∀ fn : CoreFn, ∃ r, parseArgTys s fn = some r) ∧
      (∀ fn : CoreFn, (∃ fn', parseArgTys s fn = some (fn', true)) ↔
        ∃ (star : Bool) (ts : List (CoreVal × Bool)),
          s = (if star then ['*'] else []) ++ tokenText ts) ∧
      (∀ (E : InitEnv) (i : Nat) (rt : ComponentizeRuntime) (f : JSVal),
        E.getProperty (E.exports i).name = some f → (E.exports i).args = s →
        (¬ ∃ (star : Bool) (ts : List (CoreVal × Bool)),
          s = (if star then ['*'] else []) ++ tokenText ts) →
        ∃ fn', initExport E i rt
          = some ({ rt with fns := rt.fns ++ [fn'], init_err := InitError.TypeParse }, false)) := by
  have htotal : ∀ fn : CoreFn, ∃ r, parseArgTys s fn = some r := by
    intro fn
    unfold parseArgTys
    have hlen : (if s.headD NUL = '*' then s.drop 1 else s).length < s.length + 1 := by
      split
      · simp; omega
      · omega
    obtain ⟨r, hr⟩ := parseArgsLoop_total (s.length + 1) _
      (if s.headD NUL = '*' then { fn with paramptr := true } else fn).args hlen
    dsimp only
    rw [hr]
    exact ⟨_, rfl⟩
  have hiff : ∀ fn : CoreFn, (∃ fn', parseArgTys s fn = some (fn', true)) ↔
      ∃ (star : Bool) (ts : List (CoreVal × Bool)),
        s = (if star then ['*'] else []) ++ tokenText ts := by
    intro fn
    constructor
    · rintro ⟨fn', h⟩
      unfold parseArgTys at h
      simp only [Option.map_eq_some'] at h
      obtain ⟨⟨r, b⟩, hr, he⟩ := h
      simp only [Prod.mk.injEq] at he
      obtain ⟨_, hb⟩ := he
      subst hb
      by_cases hstar : s.headD NUL = '*'
      · rw [if_pos hstar] at hr
        cases s with
        | nil => simp at hstar; exact absurd hstar (by decide)
        | cons c cs =>
            simp only [List.headD_cons] at hstar
            subst hstar
            simp only [List.drop_succ_cons, List.drop_zero] at hr
            obtain ⟨ts, hts, _⟩ :=
              parseArgsLoop_accepts _ cs _ r (fun hm => hnul (List.mem_cons_of_mem _ hm)) hr
            exact ⟨true, ts, by simp [hts]⟩
      · rw [if_neg hstar] at hr
        obtain ⟨ts, hts, _⟩ := parseArgsLoop_accepts _ s _ r hnul hr
        exact ⟨false, ts, by simp [hts]⟩
    · rintro ⟨star, ts, rfl⟩
      cases star with
      | true =>
          unfold parseArgTys
          simp only [if_true, List.cons_append, List.nil_append, List.headD_cons,
            List.drop_succ_cons, List.drop_zero, List.length_cons]
          rw [parseArgsLoop_tokenText ts _ _ (by have := tokenText_length ts; omega)]
          exact ⟨_, rfl⟩
      | false =>
          unfold parseArgTys
          simp only [Bool.false_eq_true, if_false, List.nil_append,
            if_neg (tokenText_headD ts).2]
          rw [parseArgsLoop_tokenText ts _ _ (tokenText_length ts)]
          exact ⟨_, rfl⟩
  refine ⟨htotal, hiff, ?_⟩
  intro E i rt f hprop hargs hbad
  obtain ⟨⟨fn2, b⟩, hr⟩ := htotal { func := f }
  cases b with
  | true => exact absurd ((hiff { func := f }).mp ⟨fn2, hr⟩) hbad
  | false =>
      refine ⟨fn2, ?_⟩
      unfold initExport
      simp only [hprop, hargs, hr]

/-- Witness for C9 as amended: the descriptor `i99`. -/
theorem parseArgTys_accepts_iff_witness :
    ∃ fn', initExport envI99 0 Runtime0
      = some ({ Runtime0 with fns := Runtime0.fns ++ [fn'], init_err := InitError.TypeParse },
              false) :=
  (parseArgTys_accepts_iff ['i', '9', '9'] (by decide)).2.2 envI99 0 Runtime0 (JSVal.object 1)
    rfl rfl (by
      intro h
      have h2 := ((parseArgTys_accepts_iff ['i', '9', '9'] (by decide)).2.1 {}).mpr h
      obtain ⟨fn', hfn⟩ := h2
      have h3 : parseArgTys ['i', '9', '9'] {} = some ({}, false) := by decide
      rw [h3] at hfn
      cases hfn)

theorem parseArgTys_total (s : List Char) (fn : CoreFn) : ∃ r, parseArgTys s fn = some r := by
  unfold parseArgTys
  have hlen : (if s.headD NUL = '*' then s.drop 1 else s).length < s.length + 1 := by
    split
    · simp; omega
    · omega
  obtain ⟨r, hr⟩ := parseArgsLoop_total (s.length + 1) _
    (if s.headD NUL = '*' then { fn with paramptr := true } else fn).args hlen
  dsimp only
  rw [hr]
  exact ⟨_, rfl⟩

/-- The pass for an export that has a table entry appends that entry and lets
the loop go on. -/
theorem initExport_of_entry (E : InitEnv) (i : Nat) (rt : ComponentizeRuntime) (e : CoreFn)
    (h : exportEntry E i = some e) :
    initExport E i rt = some ({ rt with fns := rt.fns ++ [e] }, true) := by
  unfold exportEntry at h
  unfold initExport
  cases hprop : E.getProperty (E.exports i).name with
  | none => rw [hprop] at h; simp at h
  | some f =>
      rw [hprop] at h
      simp only at h ⊢
      cases hparse : parseArgTys (E.exports i).args { func := f } with
      | none => rw [hparse] at h; simp at h
      | some r =>
          obtain ⟨fn2, b⟩ := r
          rw [hparse] at h
          cases b with
          | false => simp at h
          | true =>
              simp only at h ⊢
              cases hret : parseRetTy (E.exports i).ret fn2 with
              | mk fn3 b2 =>
                  rw [hret] at h
                  cases b2 with
                  | false => simp at h
                  | true =>
                      simp only [Option.some.injEq] at h
                      subst h
                      rfl

/-- The pass for an export that has no table entry records the failure of that
export and ends the loop; one entry has been appended all the same. -/
theorem initExport_of_none (E : InitEnv) (i : Nat) (rt : ComponentizeRuntime)
    (h : exportEntry E i = none) :
    exportError E i ≠ InitError.OK ∧
      ∃ fn, initExport E i rt
        = some ({ rt with fns := rt.fns ++ [fn], init_err := exportError E i }, false) := by
  unfold exportError
  rw [h]
  unfold exportEntry at h
  unfold initExport
  cases hprop : E.getProperty (E.exports i).name with
  | none => exact ⟨by simp, _, rfl⟩
  | some f =>
      rw [hprop] at h
      simp only at h ⊢
      refine ⟨by simp, ?_⟩
      obtain ⟨r, hparse⟩ := parseArgTys_total (E.exports i).args { func := f }
      obtain ⟨fn2, b⟩ := r
      rw [hparse] at h
      rw [hparse]
      cases b with
      | false => exact ⟨fn2, rfl⟩
      | true =>
          simp only at h ⊢
          cases hret : parseRetTy (E.exports i).ret fn2 with
          | mk fn3 b2 =>
              rw [hret] at h
              cases b2 with
              | false => exact ⟨fn3, rfl⟩
              | true => simp at h

theorem exportError_of_entry (E : InitEnv) (i : Nat) (e : CoreFn)
    (h : exportEntry E i = some e) : exportError E i = InitError.OK := by
  unfold exportError
  cases hprop : E.getProperty (E.exports i).name with
  | none =>
      unfold exportEntry at h
      rw [hprop] at h
      simp at h
  | some f => simp only [h]

/-- The loop over the exports when it ends without an error recorded: it has
appended the entries of the exports `i`, ..., `i + n - 1` in that order. -/
theorem initLoop_ok (E : InitEnv) (n : Nat) :
    ∀ (i : Nat) (rt rt' : ComponentizeRuntime), rt.init_err = InitError.OK →
      initLoop E n i rt = some rt' → rt'.init_err = InitError.OK →
      ∃ entries : List CoreFn, rt' = { rt with fns := rt.fns ++ entries } ∧
        entries.length = n ∧ ∀ j, j < n → exportEntry E (i + j) = entries[j]? := by
  induction n with
  | zero =>
      intro i rt rt' _ h _
      simp only [initLoop, Option.some.injEq] at h
      subst h
      exact ⟨[], by simp, rfl, by intro j hj; omega⟩
  | succ n ih =>
      intro i rt rt' hrt h hok
      rw [initLoop] at h
      cases hent : exportEntry E i with
      | none =>
          obtain ⟨hne, fn, hfn⟩ := initExport_of_none E i rt hent
          rw [hfn] at h
          simp only [Option.some.injEq] at h
          subst h
          exact absurd hok hne
      | some e =>
          rw [initExport_of_entry E i rt e hent] at h
          simp only at h
          obtain ⟨es, hes, hlen, hget⟩ :=
            ih (i + 1) { rt with fns := rt.fns ++ [e] } rt' hrt h hok
          refine ⟨e :: es, ?_, by simp [hlen], ?_⟩
          · rw [hes]; simp
          · intro j hj
            cases j with
            | zero => simpa using hent
            | succ j =>
                have := hget j (by omega)
                rw [show i + (j + 1) = i + 1 + j by omega, this]
                simp

/-- The loop over the exports always ends. -/
theorem initLoop_total (E : InitEnv) (n : Nat) :
    ∀ (i : Nat) (rt : ComponentizeRuntime), ∃ rt', initLoop E n i rt = some rt' := by
  induction n with
  | zero => intro i rt; exact ⟨rt, rfl⟩
  | succ n ih =>
      intro i rt
      rw [initLoop]
      cases hent : exportEntry E i with
      | none =>
          obtain ⟨_, fn, hfn⟩ := initExport_of_none E i rt hent
          rw [hfn]
          exact ⟨_, rfl⟩
      | some e =>
          rw [initExport_of_entry E i rt e hent]
          exact ih _ _

/-- The loop over the exports when all of the next `n` exports have an entry:
no error is recorded. -/
theorem initLoop_all_ok (E : InitEnv) (n : Nat) :
    ∀ (i : Nat) (rt : ComponentizeRuntime),
      (∀ j, j < n → exportError E (i + j) = InitError.OK) →
      ∃ rt', initLoop E n i rt = some rt' ∧ rt'.init_err = rt.init_err ∧
        rt'.fns.length = rt.fns.length + n := by
  induction n with
  | zero => intro i rt _; exact ⟨rt, rfl, rfl, rfl⟩
  | succ n ih =>
      intro i rt hall
      rw [initLoop]
      cases hent : exportEntry E i with
      | none =>
          have := (initExport_of_none E i rt hent).1
          exact absurd (by simpa using hall 0 (by omega)) this
      | some e =>
          rw [initExport_of_entry E i rt e hent]
          obtain ⟨rt', h1, h2, h3⟩ := ih (i + 1) { rt with fns := rt.fns ++ [e] }
            (fun j hj => by
              have := hall (j + 1) (by omega)
              rwa [show i + (j + 1) = i + 1 + j by omega] at this)
          exact ⟨rt', h1, h2, by rw [h3]; simp; omega⟩

/-- The loop over the exports when export `i + k` is the first to fail: the
loop stops there with the failure of that export recorded. -/
theorem initLoop_first_failure (E : InitEnv) (k : Nat) :
    ∀ (n i : Nat) (rt : ComponentizeRuntime), k < n →
      (∀ j, j < k → exportError E (i + j) = InitError.OK) →
      exportError E (i + k) ≠ InitError.OK →
      ∃ rt', initLoop E n i rt = some rt' ∧ rt'.init_err = exportError E (i + k) ∧
        rt'.fns.length = rt.fns.length + (k + 1) := by
  induction k with
  | zero =>
      intro n i rt hn _ hbad
      obtain ⟨m, rfl⟩ : ∃ m, n = m + 1 := ⟨n - 1, by omega⟩
      rw [initLoop]
      cases hent : exportEntry E i with
      | none =>
          obtain ⟨_, fn, hfn⟩ := initExport_of_none E i rt hent
          rw [hfn]
          exact ⟨_, rfl, rfl, by simp⟩
      | some e =>
          exact absurd (exportError_of_entry E i e hent) hbad
  | succ k ih =>
      intro n i rt hn hall hbad
      obtain ⟨m, rfl⟩ : ∃ m, n = m + 1 := ⟨n - 1, by omega⟩
      rw [initLoop]
      cases hent : exportEntry E i with
      | none =>
          have := (initExport_of_none E i rt hent).1
          exact absurd (by simpa using hall 0 (by omega)) this
      | some e =>
          rw [initExport_of_entry E i rt e hent]
          obtain ⟨rt', h1, h2, h3⟩ := ih m (i + 1) { rt with fns := rt.fns ++ [e] } (by omega)
            (fun j hj => by
              have := hall (j + 1) (by omega)
              rwa [show i + (j + 1) = i + 1 + j by omega] at this)
            (by rwa [show i + 1 + k = i + (k + 1) by omega])
          refine ⟨rt', h1, ?_, by rw [h3]; simp; omega⟩
          rw [h2, show i + 1 + k = i + (k + 1) by omega]

theorem parseArgTys_frame (s : List Char) (fn fn2 : CoreFn) (b : Bool)
    (h : parseArgTys s fn = some (fn2, b)) :
    fn2.func = fn.func ∧ fn2.ret = fn.ret ∧ fn2.retptr = fn.retptr ∧ fn2.retsize = fn.retsize := by
  unfold parseArgTys at h
  simp only [Option.map_eq_some'] at h
  obtain ⟨r, _, hr⟩ := h
  simp only [Prod.mk.injEq] at hr
  obtain ⟨hr, _⟩ := hr
  subst hr
  split <;> exact ⟨rfl, rfl, rfl, rfl⟩

theorem parseRetTy_frame (s : List Char) (fn : CoreFn) :
    (parseRetTy s fn).1.func = fn.func ∧ (parseRetTy s fn).1.args = fn.args ∧
      (parseRetTy s fn).1.paramptr = fn.paramptr ∧ (parseRetTy s fn).1.retsize = fn.retsize := by
  unfold parseRetTy
  split
  · dsimp only
    split <;> split <;> exact ⟨rfl, rfl, rfl, rfl⟩
  · exact ⟨rfl, rfl, rfl, rfl⟩

/-- What the table entry of an export consists of. -/
theorem exportEntry_some (E : InitEnv) (i : Nat) (e : CoreFn) (h : exportEntry E i = some e) :
    ∃ f fn2 fn3, E.getProperty (E.exports i).name = some f ∧
      parseArgTys (E.exports i).args { func := f } = some (fn2, true) ∧
      parseRetTy (E.exports i).ret fn2 = (fn3, true) ∧
      e = { func := f, args := fn2.args, paramptr := fn2.paramptr, ret := fn3.ret,
            retptr := fn3.retptr, retsize := toUInt32 (E.exports i).retsize } := by
  unfold exportEntry at h
  cases hprop : E.getProperty (E.exports i).name with
  | none => rw [hprop] at h; simp at h
  | some f =>
      rw [hprop] at h
      simp only at h
      cases hparse : parseArgTys (E.exports i).args { func := f } with
      | none => rw [hparse] at h; simp at h
      | some r =>
          obtain ⟨fn2, b⟩ := r
          rw [hparse] at h
          cases b with
          | false => simp at h
          | true =>
              simp only at h
              cases hret : parseRetTy (E.exports i).ret fn2 with
              | mk fn3 b2 =>
                  rw [hret] at h
                  cases b2 with
                  | false => simp at h
                  | true =>
                      simp only [Option.some.injEq] at h
                      refine ⟨f, fn2, fn3, rfl, hparse, hret, ?_⟩
                      obtain ⟨a1, _, _, _⟩ := parseArgTys_frame _ _ _ _ hparse
                      have hf := parseRetTy_frame (E.exports i).ret fn2
                      rw [hret] at hf
                      obtain ⟨b1, b2, b3, _⟩ := hf
                      simp only at a1 b1 b2 b3
                      rw [← h, ← b2, ← b3, ← a1, ← b1]

/-- C11: initialization always ends, and when it ends with no error recorded
for a manifest of `N` exports (starting with an empty table), the function
table has exactly `N` entries and entry `i` holds the callable bound to the
name of export `i`, the parameter kinds and the `paramptr` flag parsed from its
argument descriptor, the return kind and the `retptr` flag parsed from its
return descriptor, and its result-buffer size, in the order of the exports. -/
theorem init_table_entries (E : InitEnv) (rt : ComponentizeRuntime) (hfns : rt.fns = [])
    (herr : rt.init_err = InitError.OK) :
    (∃ rt', componentize_initialize E rt = some rt') ∧
      ∀ rt', componentize_initialize E rt = some rt' → rt'.init_err = InitError.OK →
        rt'.fns.length = E.export_cnt ∧
        ∀ i, i < E.export_cnt →
          ∃ f fn2 fn3, E.getProperty (E.exports i).name = some f ∧
            parseArgTys (E.exports i).args { func := f } = some (fn2, true) ∧
            parseRetTy (E.exports i).ret fn2 = (fn3, true) ∧
            rt'.fns[i]? = some { func := f, args := fn2.args, paramptr := fn2.paramptr,
                                 ret := fn3.ret, retptr := fn3.retptr,
                                 retsize := toUInt32 (E.exports i).retsize } := by
  constructor
  · unfold componentize_initialize
    dsimp only
    split
    · exact ⟨_, rfl⟩
    · split
      · exact ⟨_, rfl⟩
      · exact initLoop_total E _ _ _
  · intro rt' h hok
    unfold componentize_initialize at h
    dsimp only at h
    split at h
    · simp only [Option.some.injEq] at h
      subst h
      simp at hok
    · split at h
      · simp only [Option.some.injEq] at h
        subst h
        simp at hok
      · have hrt2 : ∀ r : ComponentizeRuntime, r.fns = [] → r.init_err = InitError.OK →
            initLoop E E.export_cnt 0 r = some rt' →
            rt'.fns.length = E.export_cnt ∧
            ∀ i, i < E.export_cnt → exportEntry E i = rt'.fns[i]? := by
          intro r hr1 hr2 hl
          obtain ⟨es, hes, hlen, hget⟩ := initLoop_ok E E.export_cnt 0 r rt' hr2 hl hok
          rw [hes]
          simp only [hr1, List.nil_append]
          refine ⟨hlen, ?_⟩
          intro i hi
          simpa using hget i hi
        have hmain : rt'.fns.length = E.export_cnt ∧
            ∀ i, i < E.export_cnt → exportEntry E i = rt'.fns[i]? := by
          refine hrt2 _ ?_ ?_ h
          · split <;> split <;> exact hfns
          · split <;> split <;> exact herr
        refine ⟨hmain.1, ?_⟩
        intro i hi
        have hlt : i < rt'.fns.length := by rw [hmain.1]; exact hi
        have hent := hmain.2 i hi
        rw [List.getElem?_eq_getElem hlt] at hent
        obtain ⟨f, fn2, fn3, h1, h2, h3, h4⟩ := exportEntry_some E i _ hent
        refine ⟨f, fn2, fn3, h1, h2, h3, ?_⟩
        rw [List.getElem?_eq_getElem hlt, h4]

/-- Witness for C11: the manifest of one export with the argument descriptor
`i32,i64`, starting from the runtime before initialization. -/
theorem init_table_entries_witness :
    ({ Runtime0 with
        fns := [{ func := JSVal.object 1, args := [CoreVal.I32, CoreVal.I64] }] } :
      ComponentizeRuntime).fns.length = envI32I64.export_cnt :=
  ((init_table_entries envI32I64 Runtime0 rfl rfl).2
    { Runtime0 with fns := [{ func := JSVal.object 1, args := [CoreVal.I32, CoreVal.I64] }] }
    (by decide) rfl).1

/-- C12, counterexample: for a manifest whose one export has no failure, but
for which the call of `bindExports` fails, initialization records `FnList`, and
`check_init` returns it, although no export failed. -/
theorem init_script_failure_counterexample :
    envBindFails.export_cnt = 1 ∧ exportError envBindFails 0 = InitError.OK ∧
      componentize_initialize envBindFails Runtime0
        = some { Runtime0 with init_err := InitError.FnList } ∧
      (check_init { rt := { Runtime0 with init_err := InitError.FnList }, heap := heap0 }).1
        = InitError.FnList := by
  decide

/-- C12 as amended: initialization errors are recorded, not raised. When
setting `$source_mod` or the call of `bindExports` fails, `FnList` is recorded
before any export is processed and the function table stays as it was.
Otherwise initialization goes through the exports in their order and stops at
the first one that fails, with `FnList` recorded when the lookup of its name
failed and `TypeParse` when a descriptor of it did not parse; the exports after
it are not processed; and when no export fails, no error is recorded.
`check_init` returns the recorded error code, leaves the runtime state as it
is, and returns the same when called again. -/
theorem init_errors_recorded (E : InitEnv) (rt : ComponentizeRuntime)
    (herr : rt.init_err = InitError.OK) :
    ((E.setSourceMod = false ∨ E.bindExports = false) →
        ∃ rt', componentize_initialize E rt = some rt' ∧ rt'.init_err = InitError.FnList ∧
          rt'.fns = rt.fns ∧
          ∀ h : Heap, (check_init { rt := rt', heap := h }).1 = InitError.FnList) ∧
      (E.setSourceMod = true → E.bindExports = true →
        (∀ i, i < E.export_cnt → exportError E i = InitError.OK) →
        ∃ rt', componentize_initialize E rt = some rt' ∧ rt'.init_err = InitError.OK ∧
          ∀ h : Heap, (check_init { rt := rt', heap := h }).1 = InitError.OK) ∧
      (E.setSourceMod = true → E.bindExports = true →
        ∀ k, k < E.export_cnt → (∀ i, i < k → exportError E i = InitError.OK) →
        exportError E k ≠ InitError.OK →
        ∃ rt', componentize_initialize E rt = some rt' ∧ rt'.init_err = exportError E k ∧
          rt'.fns.length = rt.fns.length + (k + 1) ∧
          ∀ h : Heap, (check_init { rt := rt', heap := h }).1 = exportError E k) ∧
      (∀ k, (E.getProperty (E.exports k).name = none → exportError E k = InitError.FnList) ∧
        (∀ f, E.getProperty (E.exports k).name = some f → exportEntry E k = none →
          exportError E k = InitError.TypeParse) ∧
        (∀ e, exportEntry E k = some e → exportError E k = InitError.OK)) ∧
      (∀ s : St, check_init s = (s.rt.init_err, s) ∧
        check_init (check_init s).2 = check_init s) := by
  have hunf : E.setSourceMod = true → E.bindExports = true →
      ∀ r, componentize_initialize E rt = r ↔
      initLoop E E.export_cnt 0
        (if toUInt32 E.feature_clocks ≠ 0 then
          { (if toUInt32 E.debug ≠ 0 then { rt with debug := true } else rt) with clocks := true }
         else (if toUInt32 E.debug ≠ 0 then { rt with debug := true } else rt)) = r := by
    intro hset hbind r
    unfold componentize_initialize
    simp [hset, hbind]
  have hfail : (E.setSourceMod = false ∨ E.bindExports = false) →
      componentize_initialize E rt
        = some { (if toUInt32 E.feature_clocks ≠ 0 then
          { (if toUInt32 E.debug ≠ 0 then { rt with debug := true } else rt) with clocks := true }
         else (if toUInt32 E.debug ≠ 0 then { rt with debug := true } else rt)) with
          init_err := InitError.FnList } := by
    intro h
    unfold componentize_initialize
    dsimp only
    cases hs : E.setSourceMod with
    | false => simp
    | true =>
        cases hb : E.bindExports with
        | false => simp
        | true => rw [hs, hb] at h; simp at h
  have herr2 : (if toUInt32 E.feature_clocks ≠ 0 then
          { (if toUInt32 E.debug ≠ 0 then { rt with debug := true } else rt) with clocks := true }
         else (if toUInt32 E.debug ≠ 0 then { rt with debug := true } else rt)).init_err
        = InitError.OK := by
    split <;> split <;> exact herr
  have hfns2 : (if toUInt32 E.feature_clocks ≠ 0 then
          { (if toUInt32 E.debug ≠ 0 then { rt with debug := true } else rt) with clocks := true }
         else (if toUInt32 E.debug ≠ 0 then { rt with debug := true } else rt)).fns
        = rt.fns := by
    split <;> split <;> rfl
  refine ⟨?_, ?_, ?_, ?_, ?_⟩
  · intro h
    exact ⟨_, hfail h, rfl, hfns2, fun _ => rfl⟩
  · intro hset hbind hall
    obtain ⟨rt', h1, h2, _⟩ := initLoop_all_ok E E.export_cnt 0 _
      (fun j hj => by simpa using hall j hj)
    refine ⟨rt', (hunf hset hbind _).mpr h1, by rw [h2, herr2], ?_⟩
    intro h
    simp only [check_init]
    rw [h2, herr2]
  · intro hset hbind k hk hall hbad
    obtain ⟨rt', h1, h2, h3⟩ := initLoop_first_failure E k E.export_cnt 0 _ hk
      (fun j hj => by simpa using hall j hj) (by simpa using hbad)
    simp only [Nat.zero_add] at h2
    refine ⟨rt', (hunf hset hbind _).mpr h1, h2, by rw [h3, hfns2], ?_⟩
    intro h
    simp only [check_init]
    exact h2
  · intro k
    refine ⟨?_, ?_, ?_⟩
    · intro hnone
      unfold exportError
      rw [hnone]
    · intro f hf hent
      unfold exportError
      rw [hf, hent]
    · intro e he
      exact exportError_of_entry E k e he
  · intro s
    exact ⟨rfl, rfl⟩

/-- Witness for C12 as amended: the manifest whose only export has the
argument descriptor `i99`, and the manifest for which `bindExports` fails. -/
theorem init_errors_recorded_witness :
    (∃ rt', componentize_initialize envI99 Runtime0 = some rt' ∧
      rt'.init_err = InitError.TypeParse) ∧
      (∃ rt', componentize_initialize envBindFails Runtime0 = some rt' ∧
        rt'.init_err = InitError.FnList) :=
  have h := (init_errors_recorded envI99 Runtime0 rfl).2.2.1 rfl rfl 0 (by decide)
    (fun i hi => absurd hi (Nat.not_lt_zero i)) (by decide)
  have h2 := (init_errors_recorded envBindFails Runtime0 rfl).1 (Or.inr rfl)
  ⟨h.elim fun rt' hrt' => ⟨rt', hrt'.1, hrt'.2.1.trans (by decide)⟩,
    h2.elim fun rt' hrt' => ⟨rt', hrt'.1, hrt'.2.1⟩⟩

/-! ## Marshalling of the arguments -/

theorem set_append_mid (pre : List JSVal) (m v : JSVal) (rest : List JSVal) :
    (pre ++ m :: rest).set pre.length v = pre ++ v :: rest := by
  induction pre with
  | nil => rfl
  | cons p pre ih => simp [ih]

theorem marshalLoop_cons (W : World) (k : CoreVal) (ks : List CoreVal) (i c : Nat)
    (args : List JSVal) :
    marshalLoop W (k :: ks) i c args
      = (setArg args i (decodeAt W k c)).bind (marshalLoop W ks (i + 1) (c + coreSize k)) := by
  cases k <;> rfl

/-- The marshalling loop overwrites the entries `i`, ..., `i + n - 1` of the
vector with the values decoded for the `n` kinds and leaves the others. -/
theorem marshalLoop_spec (W : World) (ks : List CoreVal) :
    ∀ (pre mid post : List JSVal) (c : Nat), mid.length = ks.length →
      marshalLoop W ks pre.length c (pre ++ mid ++ post)
        = some (pre ++ decodeAll W ks c ++ post) := by
  induction ks with
  | nil =>
      intro pre mid post c h
      have : mid = [] := List.length_eq_zero.mp h
      subst this
      simp [marshalLoop, decodeAll]
  | cons k ks ih =>
      intro pre mid post c h
      cases mid with
      | nil => simp at h
      | cons m mid =>
          rw [marshalLoop_cons]
          have hlt : pre.length < (pre ++ m :: mid ++ post).length := by simp
          have hset : setArg (pre ++ m :: mid ++ post) pre.length (decodeAt W k c)
              = some ((pre ++ [decodeAt W k c]) ++ mid ++ post) := by
            unfold setArg
            rw [if_pos hlt]
            have : pre ++ m :: mid ++ post = pre ++ m :: (mid ++ post) := by simp
            rw [this, set_append_mid]
            simp
          rw [hset]
          simp only [Option.some_bind]
          have hl : pre.length + 1 = (pre ++ [decodeAt W k c]).length := by simp
          rw [hl, ih (pre ++ [decodeAt W k c]) mid post _ (by simpa using h)]
          simp [decodeAll]

theorem decodeAll_length (W : World) (ks : List CoreVal) :
    ∀ c, (decodeAll W ks c).length = ks.length := by
  induction ks with
  | nil => intro c; rfl
  | cons k ks ih => intro c; simp [decodeAll, ih]

theorem argOffset_zero (ks : List CoreVal) : argOffset ks 0 = 0 := by
  simp [argOffset]

theorem argOffset_succ (k : CoreVal) (ks : List CoreVal) (j : Nat) :
    argOffset (k :: ks) (j + 1) = coreSize k + argOffset ks j := by
  simp [argOffset]

/-- The value decoded for position `j` is read at the start address plus the
sizes of the kinds before it. -/
theorem decodeAll_getElem? (W : World) (ks : List CoreVal) :
    ∀ (c j : Nat), (decodeAll W ks c)[j]?
      = (ks[j]?).map (fun k => decodeAt W k (c + argOffset ks j)) := by
  induction ks with
  | nil => intro c j; simp [decodeAll]
  | cons k ks ih =>
      intro c j
      cases j with
      | zero => simp [decodeAll, argOffset_zero]
      | succ j =>
          simp only [decodeAll, List.getElem?_cons_succ, ih, argOffset_succ]
          congr 1
          funext x
          rw [Nat.add_assoc]

/-- The block "setting args" for a descriptor without `paramptr`. -/
theorem setArgs_flat (W : World) (fn : CoreFn) (argptr : Nat) (hpp : fn.paramptr = false) :
    setArgs W fn argptr (List.replicate (argsSize fn) JSVal.undefined)
      = some (decodeAll W fn.args argptr
                ++ List.replicate (if fn.retptr then 1 else 0) JSVal.undefined,
              fn.args.length) := by
  unfold setArgs
  rw [hpp]
  simp only [Bool.false_eq_true, if_false]
  have hrep : List.replicate (argsSize fn) JSVal.undefined
      = [] ++ List.replicate fn.args.length JSVal.undefined
          ++ List.replicate (if fn.retptr then 1 else 0) JSVal.undefined := by
    unfold argsSize
    rw [List.nil_append, List.replicate_add]
  split
  · rw [hrep]
    have := marshalLoop_spec W fn.args [] (List.replicate fn.args.length JSVal.undefined)
      (List.replicate (if fn.retptr then 1 else 0) JSVal.undefined) argptr (by simp)
    simp only [List.length_nil] at this
    rw [this]
    simp
  · rename_i h0
    have hnil : fn.args = [] := List.length_eq_zero.mp (by omega)
    rw [hrep, hnil]
    simp [decodeAll]

/-! ## The effects of `call` around the invocation -/

theorem call_idle (W : World) (s : St) (fn_idx argptr : Nat) (fn : CoreFn)
    (hidle : s.rt.cur_fn_idx = -1) (hfn : s.rt.fns[fn_idx]? = some fn) :
    call W s fn_idx argptr
      = callBody W fn ⟨{ (warmup s.rt).1 with cur_fn_idx := toInt32 fn_idx }, s.heap⟩
          ((warmup s.rt).2 ++ [Event.readFn fn_idx]) argptr := by
  have hg : ¬ (warmup s.rt).1.cur_fn_idx ≠ -1 := by rw [warmup_cur_fn_idx]; simp [hidle]
  unfold call
  rw [if_neg hg, hfn]

theorem cabi_realloc_trace (W : World) (s : St) (p o a n : Nat) :
    (cabi_realloc W s p o a n).trace = [Event.realloc p n (JS_realloc W s.heap p o n).2] := rfl

theorem ReallocFn_trace (W : World) (s : St) (a0 a1 a2 a3 : Int) :
    ∀ e ∈ (ReallocFn W s a0 a1 a2 a3).trace, e.isInvoke = false := by
  unfold ReallocFn
  split <;> simp [cabi_realloc_trace, Event.isInvoke]

/-- The guest adds reallocations to the effects, nothing else. -/
theorem runGuest_trace (W : World) (g : Guest) :
    ∀ (s : St) (tr : List Event),
      ∃ l, (runGuest W g s tr).trace = tr ++ l ∧ ∀ e ∈ l, e.isInvoke = false := by
  induction g with
  | settle r => intro s tr; exact ⟨[], by simp [runGuest], by simp⟩
  | realloc a0 a1 a2 a3 k ih =>
      intro s tr
      have h := ReallocFn_trace W s a0 a1 a2 a3
      unfold runGuest
      split
      · rename_i p _
        obtain ⟨l, hl, hl2⟩ := ih p (ReallocFn W s a0 a1 a2 a3).st
          (tr ++ (ReallocFn W s a0 a1 a2 a3).trace)
        refine ⟨(ReallocFn W s a0 a1 a2 a3).trace ++ l, by rw [hl]; simp, ?_⟩
        intro e he
        rcases List.mem_append.mp he with h1 | h1
        · exact h e h1
        · exact hl2 e h1
      · exact ⟨_, rfl, h⟩
      · exact ⟨_, rfl, h⟩

/-- A successful unmarshalling is one store to the buffer. -/
theorem unmarshalRet_returned (k : CoreVal) (v : JSVal) (p : Nat) (l : List Event)
    (h : unmarshalRet k v p = Status.returned l) :
    ∃ e, l = [e] ∧ e.storeAddr = some p ∧ e.isInvoke = false := by
  unfold unmarshalRet at h
  split at h
  case h_2 =>
    split at h
    · simp only [Status.returned.injEq] at h
      exact ⟨_, h.symm, rfl, rfl⟩
    · simp at h
  case h_9 => simp at h
  all_goals
    simp only [Status.returned.injEq] at h
    exact ⟨_, h.symm, rfl, rfl⟩

theorem singularReturn_trace (W : World) (fn : CoreFn) (s : St) (tr : List Event) (rp : Nat)
    (v : JSVal) :
    ∃ l, (singularReturn W fn s tr rp v).trace = tr ++ l ∧ ∀ e ∈ l, e.isInvoke = false := by
  unfold singularReturn
  split
  · split
    · exact ⟨_, rfl, by simp [cabi_realloc_trace, Event.isInvoke]⟩
    · exact ⟨_, rfl, by simp [cabi_realloc_trace, Event.isInvoke]⟩
    · split
      · rename_i stores hst
        obtain ⟨e, he, _, he2⟩ := unmarshalRet_returned _ _ _ _ hst
        refine ⟨(cabi_realloc W s 0 0 4 fn.retsize).trace ++ stores, by simp, ?_⟩
        subst he
        intro x hx
        rcases List.mem_append.mp hx with h1 | h1
        · rw [cabi_realloc_trace] at h1
          simp only [List.mem_singleton] at h1
          subst h1
          rfl
        · simp only [List.mem_singleton] at h1
          subst h1
          exact he2
      · exact ⟨_, rfl, by simp [cabi_realloc_trace, Event.isInvoke]⟩
      · exact ⟨_, rfl, by simp [cabi_realloc_trace, Event.isInvoke]⟩
  · exact ⟨[], by simp, by simp⟩

/-- The one invocation in the effects of `invokeAndReturn` is the one of the
bound callable on the argument vector given. -/
theorem invokeAndReturn_trace (W : World) (fn : CoreFn) (s : St) (tr : List Event)
    (args : List JSVal) (rp : Nat) :
    ∃ post, (invokeAndReturn W fn s tr args rp).trace
        = tr ++ Event.invoke fn.func args :: post ∧ ∀ e ∈ post, e.isInvoke = false := by
  obtain ⟨l, hl, hl2⟩ :=
    runGuest_trace W (W.guest fn.func args) s (tr ++ [Event.invoke fn.func args])
  unfold invokeAndReturn
  split
  · exact ⟨l, by rw [hl]; simp, hl2⟩
  · exact ⟨l, by rw [hl]; simp, hl2⟩
  · split
    · exact ⟨l, by rw [hl]; simp, hl2⟩
    · exact ⟨l, by rw [hl]; simp, hl2⟩
    · rename_i ret _
      obtain ⟨l', hl', hl2'⟩ := singularReturn_trace W fn
        (runGuest W (W.guest fn.func args) s (tr ++ [Event.invoke fn.func args])).st
        (runGuest W (W.guest fn.func args) s (tr ++ [Event.invoke fn.func args])).trace rp ret
      refine ⟨l ++ l', by rw [hl', hl]; simp, ?_⟩
      intro e he
      rcases List.mem_append.mp he with h1 | h1
      · exact hl2 e h1
      · exact hl2' e h1

/-- The body of `call` for a descriptor without `paramptr` and with a boxed
result. -/
theorem callBody_flat_boxed (W : World) (fn : CoreFn) (s : St) (tr : List Event)
    (argptr : Nat) (hpp : fn.paramptr = false) (hrp : fn.retptr = true)
    (hres : W.resizeOk (argsSize fn) = true) :
    callBody W fn s tr argptr
      = invokeAndReturn W fn { s with heap := (JS_realloc W s.heap 0 0 fn.retsize).1 }
          (tr ++ [Event.realloc 0 fn.retsize (JS_realloc W s.heap 0 0 fn.retsize).2])
          (decodeAll W fn.args argptr
            ++ [JSVal.int32 (toInt32 (JS_realloc W s.heap 0 0 fn.retsize).2)])
          (JS_realloc W s.heap 0 0 fn.retsize).2 := by
  unfold callBody
  rw [if_neg (by simp [hres]), setArgs_flat W fn argptr hpp]
  simp only [hrp, if_true]
  have hset : setArg (decodeAll W fn.args argptr ++ List.replicate 1 JSVal.undefined)
      fn.args.length (JSVal.int32 (toInt32 (JS_realloc W s.heap 0 0 fn.retsize).2))
      = some (decodeAll W fn.args argptr
          ++ [JSVal.int32 (toInt32 (JS_realloc W s.heap 0 0 fn.retsize).2)]) := by
    unfold setArg
    rw [if_pos (by simp [decodeAll_length])]
    have := set_append_mid (decodeAll W fn.args argptr) JSVal.undefined
      (JSVal.int32 (toInt32 (JS_realloc W s.heap 0 0 fn.retsize).2)) []
    rw [decodeAll_length] at this
    simpa using this
  simp only [boxedRet, hrp, if_true, hset]

/-- The body of `call` for a descriptor without `paramptr` and without a boxed
result. -/
theorem callBody_flat_scalar (W : World) (fn : CoreFn) (s : St) (tr : List Event)
    (argptr : Nat) (hpp : fn.paramptr = false) (hrp : fn.retptr = false)
    (hres : W.resizeOk (argsSize fn) = true) :
    callBody W fn s tr argptr
      = invokeAndReturn W fn s tr (decodeAll W fn.args argptr) 0 := by
  unfold callBody
  rw [if_neg (by simp [hres]), setArgs_flat W fn argptr hpp]
  simp [boxedRet, hrp]

/-- For a descriptor without `paramptr`, the one invocation that `call` makes
from the idle state is on the decoded values, followed by the address of the
boxed result buffer when `retptr` is set. -/
theorem call_flat_trace (W : World) (s : St) (fn_idx argptr : Nat) (fn : CoreFn)
    (hidle : s.rt.cur_fn_idx = -1) (hfn : s.rt.fns[fn_idx]? = some fn)
    (hpp : fn.paramptr = false) (hres : W.resizeOk (argsSize fn) = true) :
    ∃ (rp : Nat) (pre post : List Event),
      (call W s fn_idx argptr).trace
        = pre ++ Event.invoke fn.func
            (decodeAll W fn.args argptr
              ++ (if fn.retptr then [JSVal.int32 (toInt32 rp)] else [])) :: post ∧
      (∀ e ∈ pre, e.isInvoke = false) ∧ (∀ e ∈ post, e.isInvoke = false) := by
  rw [call_idle W s fn_idx argptr fn hidle hfn]
  have hpre : ∀ e ∈ (warmup s.rt).2 ++ [Event.readFn fn_idx], e.isInvoke = false := by
    intro e he
    rcases List.mem_append.mp he with h1 | h1
    · rw [warmup_trace s.rt e h1]; rfl
    · simp only [List.mem_singleton] at h1
      subst h1
      rfl
  cases hrp : fn.retptr with
  | true =>
      rw [callBody_flat_boxed W fn _ _ argptr hpp hrp hres]
      obtain ⟨post, hpost, hpost2⟩ := invokeAndReturn_trace W fn
        { rt := { (warmup s.rt).1 with cur_fn_idx := toInt32 fn_idx },
          heap := (JS_realloc W s.heap 0 0 fn.retsize).1 }
        ((warmup s.rt).2 ++ [Event.readFn fn_idx]
          ++ [Event.realloc 0 fn.retsize (JS_realloc W s.heap 0 0 fn.retsize).2])
        (decodeAll W fn.args argptr
          ++ [JSVal.int32 (toInt32 (JS_realloc W s.heap 0 0 fn.retsize).2)])
        (JS_realloc W s.heap 0 0 fn.retsize).2
      refine ⟨(JS_realloc W s.heap 0 0 fn.retsize).2,
        (warmup s.rt).2 ++ [Event.readFn fn_idx]
          ++ [Event.realloc 0 fn.retsize (JS_realloc W s.heap 0 0 fn.retsize).2],
        post, ?_, ?_, hpost2⟩
      · simpa using hpost
      · intro e he
        rcases List.mem_append.mp he with h1 | h1
        · exact hpre e h1
        · simp only [List.mem_singleton] at h1
          subst h1
          rfl
  | false =>
      rw [callBody_flat_scalar W fn _ _ argptr hpp hrp hres]
      obtain ⟨post, hpost, hpost2⟩ := invokeAndReturn_trace W fn
        { rt := { (warmup s.rt).1 with cur_fn_idx := toInt32 fn_idx }, heap := s.heap }
        ((warmup s.rt).2 ++ [Event.readFn fn_idx]) (decodeAll W fn.args argptr) 0
      refine ⟨0, (warmup s.rt).2 ++ [Event.readFn fn_idx], post, ?_, hpre, hpost2⟩
      simpa using hpost

theorem decodeAll_at (W : World) (ks : List CoreVal) (c j : Nat) (k : CoreVal)
    (tail : List JSVal) (hk : ks[j]? = some k) :
    (decodeAll W ks c ++ tail)[j]? = some (decodeAt W k (c + argOffset ks j)) := by
  have hj : j < ks.length := by
    rcases Nat.lt_or_ge j ks.length with h | h
    · exact h
    · rw [List.getElem?_eq_none h] at hk; cases hk
  rw [List.getElem?_append_left (by rw [decodeAll_length]; exact hj), decodeAll_getElem?, hk]
  rfl

theorem toInt32_cases (n : Nat) :
    (n % 2 ^ 32 < 2 ^ 31 → toInt32 n = ((n % 2 ^ 32 : Nat) : Int)) ∧
      (2 ^ 31 ≤ n % 2 ^ 32 → toInt32 n = ((n % 2 ^ 32 : Nat) : Int) - 2 ^ 32) ∧
      -2 ^ 31 ≤ toInt32 n ∧ toInt32 n < 2 ^ 31 := by
  unfold toInt32
  have := Nat.mod_lt n (show 0 < 2 ^ 32 by norm_num)
  split <;> refine ⟨?_, ?_, ?_, ?_⟩ <;> intros <;> omega

/-- C13: for a descriptor without `paramptr`, `call` from the idle state (with
the argument vector resized) invokes the bound callable once, on one value per
declared parameter kind, followed by one more value when `retptr` is set. The
value for position `j` is decoded at the byte address `argptr` plus the sum of
the sizes of the kinds before `j`, the sizes being 4 for `I32` and `F32` and 8
for `I64` and `F64`; for `i32,i64` the offsets are 0 and 4. -/
theorem call_marshals_flat_args (W : World) (s : St) (fn_idx argptr : Nat) (fn : CoreFn)
    (hidle : s.rt.cur_fn_idx = -1) (hfn : s.rt.fns[fn_idx]? = some fn)
    (hpp : fn.paramptr = false) (hres : W.resizeOk (argsSize fn) = true) :
    (∃ (rp : Nat) (pre post : List Event),
      (call W s fn_idx argptr).trace
        = pre ++ Event.invoke fn.func
            (decodeAll W fn.args argptr
              ++ (if fn.retptr then [JSVal.int32 (toInt32 rp)] else [])) :: post ∧
      (∀ e ∈ pre, e.isInvoke = false) ∧ (∀ e ∈ post, e.isInvoke = false)) ∧
      (decodeAll W fn.args argptr).length = fn.args.length ∧
      (∀ (j : Nat) (k : CoreVal), fn.args[j]? = some k →
        (decodeAll W fn.args argptr)[j]?
          = some (decodeAt W k (argptr + ((fn.args.take j).map coreSize).sum))) ∧
      coreSize CoreVal.I32 = 4 ∧ coreSize CoreVal.F32 = 4 ∧
      coreSize CoreVal.I64 = 8 ∧ coreSize CoreVal.F64 = 8 ∧
      argOffset [CoreVal.I32, CoreVal.I64] 0 = 0 ∧
      argOffset [CoreVal.I32, CoreVal.I64] 1 = 4 := by
  refine ⟨call_flat_trace W s fn_idx argptr fn hidle hfn hpp hres, decodeAll_length W _ _,
    ?_, rfl, rfl, rfl, rfl, by decide, by decide⟩
  intro j k hk
  have := decodeAll_at W fn.args argptr j k [] hk
  simpa [argOffset] using this

/-- Witness for C13: the export `i32,i64` called on a buffer at address `16`
that holds the int32 `7` and then the int64 `9000000000`. -/
theorem call_marshals_flat_args_witness :
    (decodeAll WscenarioA [CoreVal.I32, CoreVal.I64] 16)[1]?
      = some (decodeAt WscenarioA CoreVal.I64 (16 + 4)) ∧
      decodeAll WscenarioA [CoreVal.I32, CoreVal.I64] 16
        = [JSVal.int32 7, JSVal.bigint 9000000000] :=
  ⟨(call_marshals_flat_args WscenarioA idleI32I64 0 16
      { func := JSVal.object 1, args := [CoreVal.I32, CoreVal.I64] } rfl rfl rfl rfl).2.2.1
      1 CoreVal.I64 rfl,
    by decide⟩

/-- C14, counterexample: the word `4294967295` at an `I32` parameter position
reaches the callable as the int32 `-1`, not as the number `4294967295`. -/
theorem i32_argument_counterexample :
    Wones.load32 0 = 4294967295 ∧
      (call Wones idleI32 0 0).trace
        = [Event.readFn 0, Event.invoke (JSVal.object 1) [JSVal.int32 (-1)]] := by
  decide

/-- C14 as amended: the 32-bit word `w` found at an `I32` parameter position of
the flat argument buffer reaches the callable as the int32 with the same bits:
the number `w` when `w` is below `2 ^ 31` and the number `w - 2 ^ 32` otherwise,
so always a value in `[-2 ^ 31, 2 ^ 31)`. -/
theorem i32_argument_is_signed (W : World) (s : St) (fn_idx argptr j : Nat) (fn : CoreFn)
    (hidle : s.rt.cur_fn_idx = -1) (hfn : s.rt.fns[fn_idx]? = some fn)
    (hpp : fn.paramptr = false) (hres : W.resizeOk (argsSize fn) = true)
    (hj : fn.args[j]? = some CoreVal.I32) :
    ∃ (args : List JSVal) (pre post : List Event),
      (call W s fn_idx argptr).trace = pre ++ Event.invoke fn.func args :: post ∧
      (∀ e ∈ pre, e.isInvoke = false) ∧ (∀ e ∈ post, e.isInvoke = false) ∧
      args[j]? = some (JSVal.int32 (toInt32 (W.load32 (argptr + argOffset fn.args j)))) ∧
      (W.load32 (argptr + argOffset fn.args j) % 2 ^ 32 < 2 ^ 31 →
        toInt32 (W.load32 (argptr + argOffset fn.args j))
          = ((W.load32 (argptr + argOffset fn.args j) % 2 ^ 32 : Nat) : Int)) ∧
      (2 ^ 31 ≤ W.load32 (argptr + argOffset fn.args j) % 2 ^ 32 →
        toInt32 (W.load32 (argptr + argOffset fn.args j))
          = ((W.load32 (argptr + argOffset fn.args j) % 2 ^ 32 : Nat) : Int) - 2 ^ 32) ∧
      -2 ^ 31 ≤ toInt32 (W.load32 (argptr + argOffset fn.args j)) ∧
      toInt32 (W.load32 (argptr + argOffset fn.args j)) < 2 ^ 31 := by
  obtain ⟨rp, pre, post, h1, h2, h3⟩ := call_flat_trace W s fn_idx argptr fn hidle hfn hpp hres
  obtain ⟨c1, c2, c3, c4⟩ := toInt32_cases (W.load32 (argptr + argOffset fn.args j))
  exact ⟨_, pre, post, h1, h2, h3, decodeAll_at W fn.args argptr j CoreVal.I32 _ hj,
    c1, c2, c3, c4⟩

/-- Witness for C14 as amended: the word `4294967295` at position `0`. -/
theorem i32_argument_is_signed_witness :
    ∃ (args : List JSVal) (pre post : List Event),
      (call Wones idleI32 0 0).trace = pre ++ Event.invoke (JSVal.object 1) args :: post ∧
      args[0]? = some (JSVal.int32 (-1)) :=
  (i32_argument_is_signed Wones idleI32 0 0 0 { func := JSVal.object 1, args := [CoreVal.I32] }
    rfl rfl rfl rfl rfl).elim fun args h =>
    h.elim fun pre h => h.elim fun post h => ⟨args, pre, post, h.1, h.2.2.2.1⟩

/-! ## Packed parameters and result buffers -/

/-- C15, evaluation at the failing input: the argument descriptor `*` is
accepted with `paramptr` set and no parameter kind, and `call` for it sizes the
argument vector to zero entries and then writes entry `0`: the write is outside
the vector and no callable is invoked. For the descriptor `*i32,i32` the
callable is invoked with two entries, the pointer and an entry left
undefined. -/
theorem paramptr_vector_size_mismatch :
    parseArgTys ['*'] { func := JSVal.object 1 }
        = some ({ func := JSVal.object 1, paramptr := true }, true) ∧
      (call W0 idleStar 0 4096).status
        = Status.undefinedBehaviour (Undefined.argIndexOutOfRange 0) ∧
      (∀ e ∈ (call W0 idleStar 0 4096).trace, e.isInvoke = false) ∧
      (call W0 idleStarTwo 0 4096).trace
        = [Event.readFn 0,
           Event.invoke (JSVal.object 1) [JSVal.int32 4096, JSVal.undefined]] := by
  decide

/-- C16, evaluation at the failing input: for the argument descriptor `*` with
the return descriptor `*f64`, `call` allocates the result buffer, but the write
of its address at entry `1` is outside the argument vector of one entry, and no
callable is invoked. For `*i32,i32` with `*f64` the address is passed as entry
`1` of three, followed by an entry left undefined. -/
theorem boxed_address_not_last_argument :
    (call W0 idleStarBoxed 0 4096).status
        = Status.undefinedBehaviour (Undefined.argIndexOutOfRange 1) ∧
      (call W0 idleStarBoxed 0 4096).trace = [Event.readFn 0, Event.realloc 0 8 8] ∧
      (call W0 idleStarTwoBoxed 0 4096).trace
        = [Event.readFn 0, Event.realloc 0 8 8,
           Event.invoke (JSVal.object 1) [JSVal.int32 4096, JSVal.int32 8, JSVal.undefined]] := by
  decide

/-! ## Scalar results -/

theorem toUInt32_toInt32_mod (n : Nat) : toUInt32 (toInt32 n) = n % 2 ^ 32 := by
  unfold toUInt32 toInt32
  have := Nat.mod_lt n (show 0 < 2 ^ 32 by norm_num)
  split <;> omega

theorem load64_lt (W : World) (a : Nat) : load64 W a < 2 ^ 64 := by
  unfold load64
  have h1 := Nat.mod_lt (W.load32 a) (show 0 < 2 ^ 32 by norm_num)
  have h2 := Nat.mod_lt (W.load32 (a + 4)) (show 0 < 2 ^ 32 by norm_num)
  omega

theorem toUInt64_toInt64 (w : Nat) (h : w < 2 ^ 64) : toUInt64 (toInt64 w) = w := by
  unfold toUInt64 toInt64
  rw [Nat.mod_eq_of_lt h]
  split <;> omega

theorem toInt64_toUInt64 (x : Int) (h1 : -2 ^ 63 ≤ x) (h2 : x < 2 ^ 63) :
    toInt64 (toUInt64 x) = x := by
  unfold toUInt64 toInt64
  split <;> omega

theorem unmarshalRet_bigint (v : Int) (p : Nat) :
    unmarshalRet CoreVal.I64 (JSVal.bigint v) p
      = if 0 ≤ v ∧ v < 2 ^ 64 then Status.returned [Event.store64 p v.toNat]
        else Status.aborted Abort.bigintRange := rfl

/-- C18: integers round-trip bit-exact. The value that the marshalling loop
makes of a 32-bit word at an `I32` position, unmarshalled as a scalar `I32`
result, stores that word; the big integer it makes of a 64-bit word at an
`I64` position, over the whole range below `2 ^ 64`, unmarshalled as a scalar
`I64` result, stores that word and does not abort. The same holds for
`to_bigint64` followed by `from_bigint64`. -/
theorem integer_roundtrip :
    (∀ (W : World) (a p : Nat),
      unmarshalRet CoreVal.I32 (decodeAt W CoreVal.I32 a) p
        = Status.returned [Event.store32 p (W.load32 a % 2 ^ 32)]) ∧
      (∀ (w p : Nat), w < 2 ^ 32 →
        unmarshalRet CoreVal.I32 (JSVal.int32 (toInt32 w)) p
          = Status.returned [Event.store32 p w]) ∧
      (∀ (W : World) (a p : Nat),
        unmarshalRet CoreVal.I64 (decodeAt W CoreVal.I64 a) p
          = Status.returned [Event.store64 p (load64 W a)]) ∧
      (∀ (w p : Nat), w < 2 ^ 64 →
        unmarshalRet CoreVal.I64 (JSVal.bigint w) p = Status.returned [Event.store64 p w]) ∧
      (∀ x : Int, -2 ^ 63 ≤ x → x < 2 ^ 63 →
        from_bigint64 (to_bigint64 x) = Status.returned x) ∧
      (∀ w : Nat, w < 2 ^ 64 →
        from_bigint64 (JSVal.bigint w) = Status.returned (toInt64 w) ∧
        toUInt64 (toInt64 w) = w) := by
  have hbig : ∀ (w p : Nat), w < 2 ^ 64 →
      unmarshalRet CoreVal.I64 (JSVal.bigint w) p = Status.returned [Event.store64 p w] := by
    intro w p hw
    rw [unmarshalRet_bigint, if_pos ⟨by omega, by omega⟩]
    simp
  have hfrom : ∀ w : Nat, w < 2 ^ 64 →
      from_bigint64 (JSVal.bigint w) = Status.returned (toInt64 w) := by
    intro w hw
    simp only [from_bigint64]
    rw [if_pos ⟨by omega, by omega⟩]
    simp
  refine ⟨?_, ?_, ?_, hbig, ?_, ?_⟩
  · intro W a p
    simp only [decodeAt, unmarshalRet, toUInt32_toInt32_mod]
  · intro w p hw
    simp only [unmarshalRet, toUInt32_toInt32 w hw]
  · intro W a p
    exact hbig (load64 W a) p (load64_lt W a)
  · intro x h1 h2
    have hlt : toUInt64 x < 2 ^ 64 := by unfold toUInt64; omega
    unfold to_bigint64
    rw [hfrom _ hlt, toInt64_toUInt64 x h1 h2]
  · intro w hw
    exact ⟨hfrom w hw, toUInt64_toInt64 w hw⟩

/-- Witness for C18: the words `4294967295` and `18446744073709551615`. -/
theorem integer_roundtrip_witness :
    unmarshalRet CoreVal.I32 (JSVal.int32 (toInt32 4294967295)) 8
        = Status.returned [Event.store32 8 4294967295] ∧
      unmarshalRet CoreVal.I64 (JSVal.bigint (18446744073709551615 : Nat)) 8
        = Status.returned [Event.store64 8 18446744073709551615] :=
  ⟨integer_roundtrip.2.1 4294967295 8 (by decide),
    integer_roundtrip.2.2.2.1 18446744073709551615 8 (by decide)⟩

/-- C19: a big integer `v` unmarshalled as `I64`, by the scalar-return path of
`call` and by `from_bigint64`, aborts exactly when `v` is negative or not
below `2 ^ 64`; otherwise the 64-bit word stored, or returned, is equal to
`v`. -/
theorem bigint_unmarshal_range (v : Int) (p : Nat) :
    (unmarshalRet CoreVal.I64 (JSVal.bigint v) p = Status.aborted Abort.bigintRange
        ↔ (v < 0 ∨ 2 ^ 64 ≤ v)) ∧
      (0 ≤ v → v < 2 ^ 64 →
        unmarshalRet CoreVal.I64 (JSVal.bigint v) p
          = Status.returned [Event.store64 p v.toNat] ∧ ((v.toNat : Nat) : Int) = v) ∧
      (from_bigint64 (JSVal.bigint v) = Status.aborted Abort.bigintRange
        ↔ (v < 0 ∨ 2 ^ 64 ≤ v)) ∧
      (0 ≤ v → v < 2 ^ 64 →
        ∃ r, from_bigint64 (JSVal.bigint v) = Status.returned r ∧
          ((toUInt64 r : Nat) : Int) = v) := by
  refine ⟨?_, ?_, ?_, ?_⟩
  · rw [unmarshalRet_bigint]
    constructor
    · intro h
      split at h
      · cases h
      · omega
    · intro h
      rw [if_neg (by omega)]
  · intro h1 h2
    rw [unmarshalRet_bigint, if_pos ⟨h1, h2⟩]
    exact ⟨rfl, Int.toNat_of_nonneg h1⟩
  · simp only [from_bigint64]
    constructor
    · intro h
      split at h
      · cases h
      · omega
    · intro h
      rw [if_neg (by omega)]
  · intro h1 h2
    simp only [from_bigint64]
    rw [if_pos ⟨h1, h2⟩]
    refine ⟨_, rfl, ?_⟩
    rw [toUInt64_toInt64 v.toNat (by omega)]
    exact Int.toNat_of_nonneg h1

/-- Witness for C19: the big integers `2 ^ 64` and `9000000000`. -/
theorem bigint_unmarshal_range_witness :
    unmarshalRet CoreVal.I64 (JSVal.bigint 18446744073709551616) 8
        = Status.aborted Abort.bigintRange ∧
      unmarshalRet CoreVal.I64 (JSVal.bigint 9000000000) 8
        = Status.returned [Event.store64 8 9000000000] :=
  ⟨(bigint_unmarshal_range 18446744073709551616 8).1.mpr (Or.inr (by decide)),
    ((bigint_unmarshal_range 9000000000 8).2.1 (by decide) (by decide)).1⟩

/-! ## The allocation list outside the call window -/

/-- C20, counterexample: in the idle state with an empty allocation list, the
tracked `cabi_realloc` returns the address `8` and leaves the state idle with
that address on the allocation list. -/
theorem idle_realloc_counterexample :
    idle0.rt.cur_fn_idx = -1 ∧ idle0.rt.free_list = [] ∧
      (cabi_realloc W0 idle0 0 0 1 8).status = Status.returned 8 ∧
      (cabi_realloc W0 idle0 0 0 1 8).st.rt.cur_fn_idx = -1 ∧
      (cabi_realloc W0 idle0 0 0 1 8).st.rt.free_list = [8] := by
  decide

/-- C20 as amended: the tracked `cabi_realloc` appends the address it gets to
the allocation list in every state, the idle one included, and leaves the
current-call index alone, so an idle state can have a non-empty allocation
list. Of the other exported operations executed while idle, `check_init` and
the untracked `cabi_realloc_adapter` leave the runtime state unchanged, and
`post_call` with an index other than `4294967295` aborts and leaves the state
unchanged. After every `post_call` that returns the allocation list is
empty. -/
theorem allocation_list_outside_window (W : World) (s : St) :
    (∀ p o a n : Nat,
      (cabi_realloc W s p o a n).st.rt.free_list
        = s.rt.free_list ++ [(JS_realloc W s.heap p o n).2] ∧
      (cabi_realloc W s p o a n).st.rt.cur_fn_idx = s.rt.cur_fn_idx) ∧
      (∀ p o a n : Nat, (cabi_realloc_adapter W s p o a n).st.rt = s.rt) ∧
      (check_init s).2 = s ∧
      (∀ j : Nat, s.rt.cur_fn_idx = -1 → j < 2 ^ 32 → j ≠ 2 ^ 32 - 1 →
        (post_call s j).status = Status.aborted Abort.postCallMismatch ∧
        (post_call s j).st = s) ∧
      (∀ j : Nat, (post_call s j).status = Status.returned () →
        (post_call s j).st.rt.free_list = []) := by
  refine ⟨fun p o a n => ⟨rfl, rfl⟩, fun p o a n => rfl, rfl, ?_, ?_⟩
  · intro j hidle hj hne
    have hg : toUInt32 s.rt.cur_fn_idx ≠ j := by
      rw [hidle]
      have : toUInt32 (-1) = 2 ^ 32 - 1 := by decide
      rw [this]
      omega
    unfold post_call
    rw [if_pos hg]
    exact ⟨rfl, rfl⟩
  · intro j hret
    exact (post_call_returned s j hret).2.1

/-- Witness for C20 as amended: `post_call` of index `0` in the idle state. -/
theorem allocation_list_outside_window_witness :
    (post_call idle0 0).status = Status.aborted Abort.postCallMismatch ∧
      (post_call idle0 0).st = idle0 :=
  (allocation_list_outside_window W0 idle0).2.2.2.1 0 (by decide) (by decide) (by decide)

/-! ## Growth of the allocation list -/

theorem toInt32_ne_zero (v : Nat) (h0 : v ≠ 0) (h : v < 2 ^ 32) : toInt32 v ≠ 0 := by
  unfold toInt32
  rw [Nat.mod_eq_of_lt h]
  split <;> omega

/-- A tracked reallocation that returns has appended the non-null address it
returns, and nothing else, to the allocation list. -/
theorem cabi_realloc_returned (W : World) (s : St) (p o a n v : Nat)
    (h : (cabi_realloc W s p o a n).status = Status.returned v) :
    v ≠ 0 ∧ v = (JS_realloc W s.heap p o n).2 ∧
      (cabi_realloc W s p o a n).st.rt = { s.rt with free_list := s.rt.free_list ++ [v] } := by
  have hc : v ≠ 0 ∧ v = (JS_realloc W s.heap p o n).2 := by
    unfold cabi_realloc at h
    dsimp only at h
    split at h
    · simp at h
    · rename_i hne
      simp only [Status.returned.injEq] at h
      exact ⟨h ▸ hne, h.symm⟩
  refine ⟨hc.1, hc.2, ?_⟩
  rw [hc.2]
  rfl

theorem cabi_realloc_failed (W : World) (s : St) (p o a n : Nat)
    (h : (JS_realloc W s.heap p o n).2 = 0) :
    (cabi_realloc W s p o a n).status = Status.aborted Abort.reallocFailed := by
  unfold cabi_realloc
  dsimp only
  rw [if_pos h]

/-- The allocation list after `call` has the list before it as a prefix. -/
theorem call_grows (W : World) (s : St) (fn_idx argptr : Nat) :
    ∃ l, (call W s fn_idx argptr).st.rt.free_list = s.rt.free_list ++ l := by
  unfold call
  split
  · exact ⟨[], by simp [warmup_free_list]⟩
  · split
    · exact ⟨[], by simp [warmup_free_list]⟩
    · rename_i fn _
      obtain ⟨l, hl⟩ := callBody_grows W fn
        ⟨{ (warmup s.rt).1 with cur_fn_idx := toInt32 fn_idx }, s.heap⟩
        ((warmup s.rt).2 ++ [Event.readFn fn_idx]) argptr
      refine ⟨l, ?_⟩
      rw [hl]
      simp [warmup_free_list]

/-- C21: the allocation list only grows, and only through the tracked path. A
tracked reallocation that returns, by `cabi_realloc` or by the guest-callable
`ReallocFn` built on it, leaves the list it found as a prefix and extends it by
exactly the one non-null address it returns (handed to the guest as the int32
with the bits of that address); a tracked reallocation that fails aborts and
never returns null; the untracked `cabi_realloc_adapter` leaves the runtime
state, the list included, unchanged for every input; and the list after a run
of the guest and after a `call` has the list before it as a prefix. -/
theorem tracked_path_only_grows (W : World) (s : St) :
    (∀ p o a n v : Nat, (cabi_realloc W s p o a n).status = Status.returned v →
      v ≠ 0 ∧ v = (JS_realloc W s.heap p o n).2 ∧
      (cabi_realloc W s p o a n).st.rt = { s.rt with free_list := s.rt.free_list ++ [v] }) ∧
      (∀ p o a n : Nat, (JS_realloc W s.heap p o n).2 = 0 →
        (cabi_realloc W s p o a n).status = Status.aborted Abort.reallocFailed) ∧
      (∀ p o a n : Nat, (cabi_realloc W s p o a n).status ≠ Status.returned 0) ∧
      (∀ (a0 a1 a2 a3 r : Int), (ReallocFn W s a0 a1 a2 a3).status = Status.returned r →
        ∃ v : Nat, v ≠ 0 ∧ r = toInt32 v ∧
          (v < 2 ^ 32 → toUInt32 r = v ∧ r ≠ 0) ∧
          (ReallocFn W s a0 a1 a2 a3).st.rt
            = { s.rt with free_list := s.rt.free_list ++ [v] }) ∧
      (∀ (a0 a1 a2 a3 : Int),
        (JS_realloc W s.heap (toUInt32 a0) (toUInt32 a1) (toUInt32 a3)).2 = 0 →
        (ReallocFn W s a0 a1 a2 a3).status = Status.aborted Abort.reallocFailed) ∧
      (∀ p o a n : Nat,
        (cabi_realloc_adapter W s p o a n).st.rt = s.rt ∧
        (cabi_realloc_adapter W s p o a n).status
          = Status.returned (JS_realloc W s.heap p o n).2) ∧
      (∀ (g : Guest) (tr : List Event),
        ∃ l, (runGuest W g s tr).st.rt.free_list = s.rt.free_list ++ l) ∧
      (∀ fn_idx argptr : Nat,
        ∃ l, (call W s fn_idx argptr).st.rt.free_list = s.rt.free_list ++ l) := by
  refine ⟨fun p o a n v h => cabi_realloc_returned W s p o a n v h,
    fun p o a n h => cabi_realloc_failed W s p o a n h, ?_, ?_, ?_, fun p o a n => ⟨rfl, rfl⟩,
    ?_, fun fn_idx argptr => call_grows W s fn_idx argptr⟩
  · intro p o a n h
    exact (cabi_realloc_returned W s p o a n 0 h).1 rfl
  · intro a0 a1 a2 a3 r h
    unfold ReallocFn at h ⊢
    split at h
    · rename_i v hv
      simp only [Status.returned.injEq] at h
      obtain ⟨h1, _, h3⟩ := cabi_realloc_returned W s _ _ _ _ v hv
      refine ⟨v, h1, h.symm, ?_, ?_⟩
      · intro hlt
        rw [← h]
        exact ⟨toUInt32_toInt32 v hlt, toInt32_ne_zero v h1 hlt⟩
      · simp only [hv]
        exact h3
    · simp at h
    · simp at h
  · intro a0 a1 a2 a3 h
    have hf := cabi_realloc_failed W s (toUInt32 a0) (toUInt32 a1) (toUInt32 a2) (toUInt32 a3) h
    unfold ReallocFn
    simp only [hf]
  · intro g tr
    obtain ⟨l, hl⟩ := runGuest_grows W g s tr
    exact ⟨l, by rw [hl]⟩

/-- Witness for C21: a tracked allocation of eight bytes while the call of
index `0` is active with the buffers `8` and `16` on the list. -/
theorem tracked_path_only_grows_witness :
    (24 : Nat) ≠ 0 ∧ 24 = (JS_realloc W0 active2.heap 0 0 8).2 ∧
      (cabi_realloc W0 active2 0 0 1 8).st.rt
        = { active2.rt with free_list := active2.rt.free_list ++ [24] } :=
  (tracked_path_only_grows W0 active2).1 0 0 1 8 24 (by decide)

end Componentize
